import Mathlib

/-!
# TMMBN packet builder

A shallow embedding of `webrtc/modules/rtp_rtcp/source/rtcp_packet/tmmbn.cc`
(Temporary Maximum Media Stream Bit Rate Notification, RFC 5104) together with
theorems about the quantizer, the 8-byte entry layout and the packet builder.

Conventions of the embedding.

* Machine integers are natural numbers; every place where the C++ code converts
  to `uint8_t` or `uint32_t` is an explicit `% 256` or `% 2 ^ 32`.  Values of
  type `size_t` (offsets and lengths) are naturals; `size_t` is taken to be 64
  bits wide, and the one `size_t` sum that can leave that range, the
  `*index + BlockLength()` of the space test in `Create`, is an explicit
  `% 2 ^ 64`.  An offset at which a write succeeds lies inside the buffer.
* A byte buffer `uint8_t*` is a `List Nat` of known length.  A write outside
  the buffer, a failed `assert` and a loop that exhausts its fuel are the three
  faults of `Fault`; the functions return `Except Fault _`.
* The two loops that may run forever (the space loop of `Create`, and the loop
  of `CreateTmmbn` whose counter is a `uint8_t`) take a fuel argument.
-/

namespace webrtc.rtcp

/-- Ways in which a run of the embedded code can go wrong. -/
inductive Fault where
  | outOfBounds
  | assertFailed
  | outOfFuel
  deriving DecidableEq, Repr

/-- The struct `RTCPUtility::RTCPPacketRTPFBTMMBRItem`: three `uint32_t` fields. -/
structure RTCPPacketRTPFBTMMBRItem where
  SSRC : Nat
  MaxTotalMediaBitRate : Nat
  MeasuredOverhead : Nat
  deriving DecidableEq, Repr

/-- The struct `RTCPUtility::RTCPPacketRTPFBTMMBN`; only `SenderSSRC` is read here. -/
structure RTCPPacketRTPFBTMMBN where
  SenderSSRC : Nat
  deriving DecidableEq, Repr

/-- The data members of class `Tmmbn`. -/
structure Tmmbn where
  tmmbn_ : RTCPPacketRTPFBTMMBN
  tmmbn_items_ : List RTCPPacketRTPFBTMMBRItem
  deriving DecidableEq, Repr

/-- The constant `kUnusedMediaSourceSsrc0` (line 23). -/
def kUnusedMediaSourceSsrc0 : Nat := 0

/-- The function `AssignUWord8` (lines 24-26): `buffer[(*offset)++] = value`, the
argument being converted to `uint8_t`. -/
def AssignUWord8 (buffer : List Nat) (offset value : Nat) : Except Fault (List Nat × Nat) :=
  if offset < buffer.length then .ok (buffer.set offset (value % 256), offset + 1)
  else .error .outOfBounds

/-- Modelled from the spec: `ByteWriter<uint32_t>::WriteBigEndian` of `byte_io.h`,
which is not part of the sources; it "writes a 32-bit unsigned integer in
big-endian byte order starting at `offset`". -/
def WriteBigEndian (buffer : List Nat) (offset value : Nat) : Except Fault (List Nat) :=
  if offset + 4 ≤ buffer.length then
    .ok ((((buffer.set offset (value >>> 24 % 256)).set (offset + 1) (value >>> 16 % 256)).set
      (offset + 2) (value >>> 8 % 256)).set (offset + 3) (value % 256))
  else .error .outOfBounds

/-- The function `AssignUWord32` (lines 27-30); the argument is a `uint32_t`. -/
def AssignUWord32 (buffer : List Nat) (offset value : Nat) : Except Fault (List Nat × Nat) :=
  match WriteBigEndian buffer offset (value % 2 ^ 32) with
  | .ok buffer => .ok (buffer, offset + 4)
  | .error e => .error e

/-- The expression `mantissa_max << i` on `uint32_t` (line 41): the bits shifted
past position 31 are lost.  C++ leaves a shift by 32 or more undefined; the
embedding keeps the same formula there, which yields 0. -/
def shl32 (x i : Nat) : Nat := (x <<< i) % 2 ^ 32

/-- The loop of lines 39-45, started at counter `i` with `remaining` iterations
left: the first `i` with `input_base10 <= (mantissa_max << i)` is stored in the
`uint8_t exponent`; when the loop runs out, `exponent` keeps its initial 0. -/
def findExponent (input_base10 mantissa_max : Nat) : Nat → Nat → Nat
  | 0, _ => 0
  | remaining + 1, i =>
    if input_base10 ≤ shl32 mantissa_max i then i % 256
    else findExponent input_base10 mantissa_max remaining (i + 1)

/-- The function `ComputeMantissaAnd6bitBase2Exponent` (lines 32-48); the result
is the pair `(*mantissa, *exp)`.  `(1 << bits_mantissa) - 1` is computed on
`int` and converted to `uint32_t`; for `bits_mantissa` of 31 or 32 the `int`
expression overflows and the embedding takes the value `2 ^ bits_mantissa - 1`
that the assertion `bits_mantissa <= 32` anticipates. -/
def ComputeMantissaAnd6bitBase2Exponent (input_base10 bits_mantissa : Nat) :
    Except Fault (Nat × Nat) :=
  if bits_mantissa ≤ 32 then
    let mantissa_max := ((1 <<< bits_mantissa) - 1) % 2 ^ 32
    let exponent := findExponent input_base10 mantissa_max 64 0
    .ok (input_base10 >>> exponent, exponent)
  else .error .assertFailed

/-- The function `CreateTmmbrItem` (lines 50-64). -/
def CreateTmmbrItem (tmmbr_item : RTCPPacketRTPFBTMMBRItem) (buffer : List Nat) (pos : Nat) :
    Except Fault (List Nat × Nat) := do
  let bitrate_bps := (tmmbr_item.MaxTotalMediaBitRate * 1000) % 2 ^ 32
  let (mantissa, exp) ← ComputeMantissaAnd6bitBase2Exponent bitrate_bps 17
  let (buffer, pos) ← AssignUWord32 buffer pos tmmbr_item.SSRC
  let (buffer, pos) ← AssignUWord8 buffer pos ((exp <<< 2) + ((mantissa >>> 15) &&& 0x03))
  let (buffer, pos) ← AssignUWord8 buffer pos (mantissa >>> 7)
  let (buffer, pos) ← AssignUWord8 buffer pos
    ((shl32 mantissa 1 + ((tmmbr_item.MeasuredOverhead >>> 8) &&& 0x01)) % 2 ^ 32)
  AssignUWord8 buffer pos tmmbr_item.MeasuredOverhead

/-- The loop of `CreateTmmbn` (lines 84-86).  The counter `i` is a `uint8_t`, so
`++i` wraps at 256. -/
def CreateTmmbnLoop (tmmbn_items : List RTCPPacketRTPFBTMMBRItem) :
    Nat → Nat → List Nat → Nat → Except Fault (List Nat × Nat)
  | 0, _, _, _ => .error .outOfFuel
  | fuel + 1, i, buffer, pos =>
    if h : i < tmmbn_items.length then
      match CreateTmmbrItem (tmmbn_items.get ⟨i, h⟩) buffer pos with
      | .ok (buffer, pos) => CreateTmmbnLoop tmmbn_items fuel ((i + 1) % 256) buffer pos
      | .error e => .error e
    else .ok (buffer, pos)

/-- The function `CreateTmmbn` (lines 78-87). -/
def CreateTmmbn (fuel : Nat) (tmmbn : RTCPPacketRTPFBTMMBN)
    (tmmbn_items : List RTCPPacketRTPFBTMMBRItem) (buffer : List Nat) (pos : Nat) :
    Except Fault (List Nat × Nat) := do
  let (buffer, pos) ← AssignUWord32 buffer pos tmmbn.SenderSSRC
  let (buffer, pos) ← AssignUWord32 buffer pos kUnusedMediaSourceSsrc0
  CreateTmmbnLoop tmmbn_items fuel 0 buffer pos

/-- The method `Tmmbn::WithTmmbr` (lines 90-102), giving the returned `bool` and
the builder afterwards.  `kMaxNumberOfTmmbrs` is a constant of `tmmbn.h`, which
is not part of the sources, and is a parameter here. -/
def Tmmbn.WithTmmbr (kMaxNumberOfTmmbrs : Nat) (self : Tmmbn) (ssrc bitrate_kbps overhead : Nat) :
    Except Fault (Bool × Tmmbn) :=
  if overhead ≤ 0x1ff then
    if self.tmmbn_items_.length ≥ kMaxNumberOfTmmbrs then .ok (false, self)
    else .ok (true, ⟨self.tmmbn_, self.tmmbn_items_ ++ [⟨ssrc, bitrate_kbps, overhead⟩]⟩)
  else .error .assertFailed

/-- The parts of the base class `RtcpPacket` that `Tmmbn::Create` calls and that
are not part of the sources: the size of the common header, the header writer
`CreateHeader(format, packet_type, length, buffer, pos)` and
`OnBufferFull(packet, index, callback)`, whose effect on the world outside the
builder is a state of type `σ`. -/
structure RtcpPacket (σ : Type) where
  kHeaderLength : Nat
  CreateHeader : Nat → Nat → Nat → List Nat → Nat → Except Fault (List Nat × Nat)
  OnBufferFull : List Nat → Nat → σ → Bool × List Nat × Nat × σ

/-- Modelled from the spec: the constant `RTCPUtility::PT_RTPFB`, which is not part
of the sources: "packet type = RTPFB=205". -/
def PT_RTPFB : Nat := 205

/-- Modelled from the spec: `Tmmbn::BlockLength` of `tmmbn.h`, which is not part of
the sources: "fixed header size + 8 bytes (sender identifier + reserved field)
+ 8 bytes per entry". -/
def Tmmbn.BlockLength (kHeaderLength : Nat) (self : Tmmbn) : Nat :=
  kHeaderLength + 8 + 8 * self.tmmbn_items_.length

/-- Modelled from the spec: `RtcpPacket::HeaderLength`, which is not part of the
sources: the header's length field is "entries*8/4 + 2". -/
def Tmmbn.HeaderLength (self : Tmmbn) : Nat :=
  self.tmmbn_items_.length * 8 / 4 + 2

/-- What a call of `Tmmbn::Create` leaves behind: the returned `bool`, the builder
`*this`, the buffer, `*index` and the state of the world behind the callback. -/
structure CreateResult (σ : Type) where
  ok : Bool
  builder : Tmmbn
  packet : List Nat
  index : Nat
  callback : σ

/-- The loop of `Tmmbn::Create` (lines 108-111).  The first component of the result
is `false` when the loop was left through `return false`.  The sum
`*index + BlockLength()` is a `size_t` sum and wraps at `2 ^ 64`. -/
def Tmmbn.CreateSpaceLoop {σ : Type} (base : RtcpPacket σ) (blockLength max_length : Nat) :
    Nat → List Nat → Nat → σ → Except Fault (Bool × List Nat × Nat × σ)
  | 0, _, _, _ => .error .outOfFuel
  | fuel + 1, packet, index, callback =>
    if (index + blockLength) % 2 ^ 64 > max_length then
      match base.OnBufferFull packet index callback with
      | (false, packet, index, callback) => .ok (false, packet, index, callback)
      | (true, packet, index, callback) =>
        Tmmbn.CreateSpaceLoop base blockLength max_length fuel packet index callback
    else .ok (true, packet, index, callback)

/-- The method `Tmmbn::Create` (lines 104-116).  It is a `const` member: the builder
`self` is only read and is handed back as it was. -/
def Tmmbn.Create {σ : Type} (base : RtcpPacket σ) (fuel : Nat) (self : Tmmbn)
    (packet : List Nat) (index max_length : Nat) (callback : σ) :
    Except Fault (CreateResult σ) :=
  match Tmmbn.CreateSpaceLoop base (self.BlockLength base.kHeaderLength) max_length fuel
      packet index callback with
  | .error e => .error e
  | .ok (false, packet, index, callback) => .ok ⟨false, self, packet, index, callback⟩
  | .ok (true, packet, index, callback) =>
    match base.CreateHeader 4 PT_RTPFB self.HeaderLength packet index with
    | .error e => .error e
    | .ok (packet, index) =>
      match CreateTmmbn fuel self.tmmbn_ self.tmmbn_items_ packet index with
      | .error e => .error e
      | .ok (packet, index) => .ok ⟨true, self, packet, index, callback⟩

/-! ## Vocabulary of the statements -/

/-- The buffer that agrees with `buffer` except that `bytes` stand at the offsets
`pos`, `pos + 1`, ... -/
def overwrite (buffer : List Nat) (pos : Nat) (bytes : List Nat) : List Nat :=
  buffer.take pos ++ bytes ++ buffer.drop (pos + bytes.length)

/-- The four bytes of a 32-bit value, most significant first. -/
def bigEndian32 (value : Nat) : List Nat :=
  [value / 2 ^ 24 % 256, value / 2 ^ 16 % 256, value / 2 ^ 8 % 256, value % 256]

/-- The eight bytes that `CreateTmmbrItem` computes from an entry and the
quantizer's output `(mantissa, exp)`, expression by expression. -/
def itemBytes (tmmbr_item : RTCPPacketRTPFBTMMBRItem) (mantissa exp : Nat) : List Nat :=
  bigEndian32 tmmbr_item.SSRC ++
    [((exp <<< 2) + ((mantissa >>> 15) &&& 0x03)) % 256,
     (mantissa >>> 7) % 256,
     ((shl32 mantissa 1 + ((tmmbr_item.MeasuredOverhead >>> 8) &&& 0x01)) % 2 ^ 32) % 256,
     tmmbr_item.MeasuredOverhead % 256]

/-- The encoding of one entry produced by `CreateTmmbrItem`: what it writes into an
eight-byte buffer from offset 0. -/
def encodedTmmbrItem (tmmbr_item : RTCPPacketRTPFBTMMBRItem) : List Nat :=
  match CreateTmmbrItem tmmbr_item (List.replicate 8 0) 0 with
  | .ok (bytes, _) => bytes
  | .error _ => []

/-- The bytes that follow the common header: sender SSRC, four zero bytes, then the
entries in order. -/
def tmmbnPayload (self : Tmmbn) : List Nat :=
  bigEndian32 self.tmmbn_.SenderSSRC ++ [0, 0, 0, 0] ++
    (self.tmmbn_items_.map encodedTmmbrItem).flatten

/-- The reading of the seventh byte `b7` that the spec gives: mantissa bit 0 in the
top bit, overhead bits 8..2 in the low seven bits. -/
def seventhByteAsSpecified (mantissa overhead b7 : Nat) : Prop :=
  b7 / 128 = mantissa % 2 ∧ b7 % 128 = overhead / 4 % 128

/-- The decoder of the round-trip property, following the spec's field widths:
from the eight bytes of an entry it reads `(ssrc, mantissa, exp)`. -/
def decodeTmmbrItem : List Nat → Option (Nat × Nat × Nat)
  | b1 :: b2 :: b3 :: b4 :: b5 :: b6 :: b7 :: _ :: _ =>
    some (b1 * 2 ^ 24 + b2 * 2 ^ 16 + b3 * 2 ^ 8 + b4,
      (((b5 &&& 3) <<< 15) ||| (b6 <<< 7)) ||| (b7 >>> 1),
      b5 >>> 2)
  | _ => none

/-- Among the values `a * 2 ^ b` with `a < 2 ^ m` and `lo ≤ b ≤ 63` that do not
exceed `v`, the value `w` is one and is the largest. -/
def IsLargestRepresentable (m lo v w : Nat) : Prop :=
  (w ≤ v ∧ ∃ a b, a < 2 ^ m ∧ lo ≤ b ∧ b ≤ 63 ∧ w = a * 2 ^ b) ∧
    ∀ a b, a < 2 ^ m → lo ≤ b → b ≤ 63 → a * 2 ^ b ≤ v → a * 2 ^ b ≤ w

/-- What invocation number `k` (counting from 0) of `OnBufferFull` returns and
leaves behind, when the invocations follow one another from the given buffer,
index and callback state. -/
def Tmmbn.callbackOutcome {σ : Type} (base : RtcpPacket σ) :
    Nat → List Nat → Nat → σ → Bool × List Nat × Nat × σ
  | 0, packet, index, callback => base.OnBufferFull packet index callback
  | k + 1, packet, index, callback =>
    match base.OnBufferFull packet index callback with
    | (_, packet, index, callback) => Tmmbn.callbackOutcome base k packet index callback

/-- Invocation number `k` (counting from 0) of `OnBufferFull` takes place in the loop
of `Create` and returns failure: it and every invocation before it is made
while `index + blockLength > max_length`, the sum being the `size_t` sum that
the loop tests, and the earlier ones return success. -/
def Tmmbn.CallbackFailsAt {σ : Type} (base : RtcpPacket σ) (blockLength max_length : Nat) :
    Nat → List Nat → Nat → σ → Prop
  | 0, packet, index, callback =>
    (index + blockLength) % 2 ^ 64 > max_length ∧
      (base.OnBufferFull packet index callback).1 = false
  | k + 1, packet, index, callback =>
    (index + blockLength) % 2 ^ 64 > max_length ∧
      (base.OnBufferFull packet index callback).1 = true ∧
      Tmmbn.CallbackFailsAt base blockLength max_length k
        (base.OnBufferFull packet index callback).2.1
        (base.OnBufferFull packet index callback).2.2.1
        (base.OnBufferFull packet index callback).2.2.2

/-- The assumption on the header writer: given room for `kHeaderLength` bytes it
writes exactly that many bytes from `pos` and advances `pos` past them. -/
def RtcpPacket.HeaderWriterOk {σ : Type} (base : RtcpPacket σ) : Prop :=
  ∀ (format packet_type length : Nat) (buffer : List Nat) (pos : Nat),
    pos + base.kHeaderLength ≤ buffer.length →
    ∃ header : List Nat, header.length = base.kHeaderLength ∧
      base.CreateHeader format packet_type length buffer pos
        = .ok (overwrite buffer pos header, pos + base.kHeaderLength)

/-- A run of `WithTmmbr` calls, one per argument triple `(ssrc, bitrate_kbps,
overhead)`, giving the returned values in order and the builder afterwards. -/
def Tmmbn.WithTmmbrCalls (kMaxNumberOfTmmbrs : Nat) :
    Tmmbn → List (Nat × Nat × Nat) → Except Fault (List Bool × Tmmbn)
  | self, [] => .ok ([], self)
  | self, (ssrc, bitrate_kbps, overhead) :: rest =>
    match Tmmbn.WithTmmbr kMaxNumberOfTmmbrs self ssrc bitrate_kbps overhead with
    | .error e => .error e
    | .ok (result, self) =>
      match Tmmbn.WithTmmbrCalls kMaxNumberOfTmmbrs self rest with
      | .error e => .error e
      | .ok (results, self) => .ok (result :: results, self)

/-- An instance of the collaborators for the concrete runs below: a four-byte
header (version 2 and format, packet type, 16-bit length), and a buffer owner
that counts its invocations, refuses when nothing has been written yet and
otherwise hands the packet on and resets the index to 0. -/
def sampleBase : RtcpPacket Nat where
  kHeaderLength := 4
  CreateHeader := fun format packet_type length buffer pos =>
    if pos + 4 ≤ buffer.length then
      .ok (overwrite buffer pos
        [(2 * 64 + format) % 256, packet_type % 256, length / 256 % 256, length % 256], pos + 4)
    else .error .outOfBounds
  OnBufferFull := fun packet index count =>
    if index = 0 then (false, packet, index, count + 1) else (true, packet, 0, count + 1)

/-- A builder with sender SSRC `0x01020304` and two entries. -/
def sampleTmmbn : Tmmbn :=
  ⟨⟨0x01020304⟩, [⟨0x11223344, 1000, 40⟩, ⟨0x55667788, 134217, 511⟩]⟩

/-- The assumption that `OnBufferFull` hands back the buffer it was given, with
whatever contents but the same length: in the C++ code `packet` is one array. -/
def RtcpPacket.KeepsLength {σ : Type} (base : RtcpPacket σ) : Prop :=
  ∀ (packet : List Nat) (index : Nat) (callback : σ),
    (base.OnBufferFull packet index callback).2.1.length = packet.length

/-- The assumption that the header writer, like the writers of this file, does not
come back with a result when fewer than `kHeaderLength` bytes are left in the
buffer from `pos`: a write outside the buffer is a fault. -/
def RtcpPacket.HeaderWriterChecked {σ : Type} (base : RtcpPacket σ) : Prop :=
  ∀ (format packet_type length : Nat) (buffer : List Nat) (pos : Nat) (r : List Nat × Nat),
    base.CreateHeader format packet_type length buffer pos = .ok r →
    pos + base.kHeaderLength ≤ buffer.length

/-- The builders that can be met: a builder without entries, and what a call of
`WithTmmbr` or of `Create` that comes back leaves of a builder that can be met. -/
inductive Tmmbn.Reachable {σ : Type} (base : RtcpPacket σ) (kMaxNumberOfTmmbrs : Nat) :
    Tmmbn → Prop where
  | empty (tmmbn : RTCPPacketRTPFBTMMBN) : Tmmbn.Reachable base kMaxNumberOfTmmbrs ⟨tmmbn, []⟩
  | withTmmbr {self after : Tmmbn} (ssrc bitrate_kbps overhead : Nat) (result : Bool) :
      Tmmbn.Reachable base kMaxNumberOfTmmbrs self →
      Tmmbn.WithTmmbr kMaxNumberOfTmmbrs self ssrc bitrate_kbps overhead = .ok (result, after) →
      Tmmbn.Reachable base kMaxNumberOfTmmbrs after
  | create {self : Tmmbn} (fuel : Nat) (packet : List Nat) (index max_length : Nat)
      (callback : σ) (r : CreateResult σ) :
      Tmmbn.Reachable base kMaxNumberOfTmmbrs self →
      Tmmbn.Create base fuel self packet index max_length callback = .ok r →
      Tmmbn.Reachable base kMaxNumberOfTmmbrs r.builder

/-- The loop of `CreateTmmbn` (lines 84-86) once more, which in addition records the
values of the counter `i` with which the body is entered, in the order of the
visits. -/
def CreateTmmbnLoopVisits (tmmbn_items : List RTCPPacketRTPFBTMMBRItem) :
    Nat → Nat → List Nat → Nat → Except Fault (List Nat × List Nat × Nat)
  | 0, _, _, _ => .error .outOfFuel
  | fuel + 1, i, buffer, pos =>
    if h : i < tmmbn_items.length then
      match CreateTmmbrItem (tmmbn_items.get ⟨i, h⟩) buffer pos with
      | .ok (buffer, pos) =>
        match CreateTmmbnLoopVisits tmmbn_items fuel ((i + 1) % 256) buffer pos with
        | .ok (visits, buffer, pos) => .ok (i :: visits, buffer, pos)
        | .error e => .error e
      | .error e => .error e
    else .ok ([], buffer, pos)

/-! ## The quantizer -/

theorem shl32_exact {x i : Nat} (h : x * 2 ^ i < 2 ^ 32) : shl32 x i = x * 2 ^ i := by
  unfold shl32
  rw [Nat.shiftLeft_eq, Nat.mod_eq_of_lt h]

theorem findExponent_first (v mm : Nat) :
    ∀ (remaining i e : Nat), i ≤ e → e < i + remaining → v ≤ shl32 mm e →
      (∀ j, i ≤ j → j < e → ¬ v ≤ shl32 mm j) →
      findExponent v mm remaining i = e % 256 := by
  intro remaining
  induction remaining with
  | zero => intro i e h1 h2; omega
  | succ n ih =>
    intro i e h1 h2 h3 h4
    unfold findExponent
    by_cases hi : v ≤ shl32 mm i
    · rw [if_pos hi]
      have : ¬ i < e := fun hlt => h4 i (Nat.le_refl i) hlt hi
      have : i = e := by omega
      rw [this]
    · rw [if_neg hi]
      have hne : i ≠ e := fun h => hi (h ▸ h3)
      apply ih (i + 1) e (by omega) (by omega) h3
      intro j hj1 hj2
      exact h4 j (by omega) hj2

theorem findExponent_none (v mm : Nat) :
    ∀ (remaining i : Nat), (∀ j, i ≤ j → j < i + remaining → ¬ v ≤ shl32 mm j) →
      findExponent v mm remaining i = 0 := by
  intro remaining
  induction remaining with
  | zero => intro i _; rfl
  | succ n ih =>
    intro i h
    unfold findExponent
    rw [if_neg (h i (Nat.le_refl i) (by omega))]
    apply ih
    intro j hj1 hj2
    exact h j (by omega) (by omega)

/-- Within the range where the 32-bit shift does not lose bits, the loop finds the
least exponent. -/
theorem findExponent_least (v mm E : Nat) (hE : E < 64) (hfit : mm * 2 ^ E < 2 ^ 32)
    (hv : v ≤ mm * 2 ^ E) :
    v ≤ mm * 2 ^ findExponent v mm 64 0 ∧ findExponent v mm 64 0 ≤ E ∧
      ∀ e, v ≤ mm * 2 ^ e → findExponent v mm 64 0 ≤ e := by
  have hex : ∃ e, v ≤ mm * 2 ^ e := ⟨E, hv⟩
  have hspec := Nat.find_spec hex
  have hleE : Nat.find hex ≤ E := Nat.find_min' hex hv
  have hexact : ∀ j, j ≤ E → shl32 mm j = mm * 2 ^ j := by
    intro j hj
    apply shl32_exact
    have : mm * 2 ^ j ≤ mm * 2 ^ E :=
      Nat.mul_le_mul_left mm (Nat.pow_le_pow_right (by norm_num) hj)
    omega
  have hfind : findExponent v mm 64 0 = Nat.find hex := by
    rw [findExponent_first v mm 64 0 (Nat.find hex) (Nat.zero_le _) (by omega)]
    · exact Nat.mod_eq_of_lt (by omega)
    · rw [hexact _ hleE]; exact hspec
    · intro j _ hj
      rw [hexact j (by omega)]
      exact Nat.find_min hex hj
  rw [hfind]
  exact ⟨hspec, hleE, fun e he => Nat.find_min' hex he⟩

theorem mantissa_max_eq (m : Nat) (hm : m ≤ 32) : ((1 <<< m) - 1) % 2 ^ 32 = 2 ^ m - 1 := by
  rw [Nat.shiftLeft_eq, Nat.one_mul]
  apply Nat.mod_eq_of_lt
  have : 2 ^ m ≤ 2 ^ 32 := Nat.pow_le_pow_right (by norm_num) hm
  have : 0 < 2 ^ m := Nat.pow_pos (by norm_num)
  omega

theorem mantissa_max_fit (m : Nat) (hm : m ≤ 32) : (2 ^ m - 1) * 2 ^ (32 - m) < 2 ^ 32 := by
  have h1 : 2 ^ m * 2 ^ (32 - m) = 2 ^ 32 := by
    rw [← Nat.pow_add]; congr 1; omega
  have h2 : 0 < 2 ^ (32 - m) := Nat.pow_pos (by norm_num)
  rw [Nat.sub_mul, h1]
  omega

theorem Compute_eq (v m : Nat) (hm : m ≤ 32) :
    ComputeMantissaAnd6bitBase2Exponent v m =
      .ok (v / 2 ^ findExponent v (2 ^ m - 1) 64 0, findExponent v (2 ^ m - 1) 64 0) := by
  unfold ComputeMantissaAnd6bitBase2Exponent
  rw [if_pos hm]
  simp only [mantissa_max_eq m hm, Nat.shiftRight_eq_div_pow]

/-- The quantizer on the inputs that `(2 ^ m - 1) << (32 - m)` covers. -/
theorem quantizer_in_range (v m : Nat) (hm : m ≤ 32) (hv : v ≤ (2 ^ m - 1) * 2 ^ (32 - m)) :
    ∃ mantissa exp, ComputeMantissaAnd6bitBase2Exponent v m = .ok (mantissa, exp) ∧
      v ≤ (2 ^ m - 1) * 2 ^ exp ∧ exp ≤ 32 - m ∧ (∀ e, v ≤ (2 ^ m - 1) * 2 ^ e → exp ≤ e) ∧
      mantissa = v / 2 ^ exp ∧ mantissa < 2 ^ m := by
  obtain ⟨h1, h2, h3⟩ :=
    findExponent_least v (2 ^ m - 1) (32 - m) (by omega) (mantissa_max_fit m hm) hv
  refine ⟨_, _, Compute_eq v m hm, h1, h2, h3, rfl, ?_⟩
  apply Nat.div_lt_of_lt_mul
  have hpos : 0 < 2 ^ findExponent v (2 ^ m - 1) 64 0 := Nat.pow_pos (by norm_num)
  have h2m : 0 < 2 ^ m := Nat.pow_pos (by norm_num)
  have : (2 ^ m - 1) * 2 ^ findExponent v (2 ^ m - 1) 64 0
      < 2 ^ m * 2 ^ findExponent v (2 ^ m - 1) 64 0 :=
    Nat.mul_lt_mul_of_pos_right (by omega) hpos
  rw [Nat.mul_comm]
  omega

/-- The exponent is always below 64, so it fits the six-bit field. -/
theorem findExponent_lt (v mm : Nat) :
    ∀ (remaining i : Nat), i + remaining ≤ 64 → findExponent v mm remaining i < 64 := by
  intro remaining
  induction remaining with
  | zero => intro i _; simp [findExponent]
  | succ n ih =>
    intro i h
    unfold findExponent
    split
    · omega
    · exact ih (i + 1) (by omega)


theorem Compute17_eq (v : Nat) :
    ComputeMantissaAnd6bitBase2Exponent v 17 =
      .ok (v / 2 ^ findExponent v 131071 64 0, findExponent v 131071 64 0) :=
  Compute_eq v 17 (by norm_num)

theorem shl32_17_le : ∀ i, i < 64 → shl32 131071 i ≤ 131071 * 2 ^ 15 := by decide

/-- Above `131071 * 2^15` no comparison of the loop succeeds: the exponent keeps its
initial 0 and the mantissa is the input itself. -/
theorem quantizer_out_of_range (v : Nat) (hv : 131071 * 2 ^ 15 < v) :
    ComputeMantissaAnd6bitBase2Exponent v 17 = .ok (v, 0) := by
  have h0 : findExponent v 131071 64 0 = 0 := by
    apply findExponent_none
    intro j _ hj
    have := shl32_17_le j (by omega)
    omega
  rw [Compute17_eq, h0]
  simp

/-! ## Writing into the buffer -/

theorem length_overwrite (buffer : List Nat) (pos : Nat) (bytes : List Nat)
    (h : pos + bytes.length ≤ buffer.length) :
    (overwrite buffer pos bytes).length = buffer.length := by
  simp only [overwrite, List.length_append, List.length_take, List.length_drop]
  omega

theorem set_eq_overwrite (buffer : List Nat) (pos b : Nat) (h : pos < buffer.length) :
    buffer.set pos b = overwrite buffer pos [b] := by
  rw [List.set_eq_take_append_cons_drop, if_pos h]
  simp [overwrite]

theorem overwrite_append (buffer : List Nat) (pos : Nat) (xs ys : List Nat)
    (h : pos + xs.length ≤ buffer.length) :
    overwrite (overwrite buffer pos xs) (pos + xs.length) ys = overwrite buffer pos (xs ++ ys) := by
  have hlen : (List.take pos buffer ++ xs).length = pos + xs.length := by
    simp only [List.length_append, List.length_take]; omega
  have hsplit : overwrite buffer pos xs
      = (List.take pos buffer ++ xs) ++ List.drop (pos + xs.length) buffer := rfl
  have htake : List.take (pos + xs.length) (overwrite buffer pos xs)
      = List.take pos buffer ++ xs := by
    rw [hsplit, ← hlen, List.take_left]
  have hdrop : List.drop (pos + xs.length + ys.length) (overwrite buffer pos xs)
      = List.drop (pos + (xs ++ ys).length) buffer := by
    rw [hsplit, ← hlen, List.drop_append, List.drop_drop, hlen, List.length_append]
    congr 1; omega
  show List.take (pos + xs.length) (overwrite buffer pos xs) ++ ys
      ++ List.drop (pos + xs.length + ys.length) (overwrite buffer pos xs) = _
  rw [htake, hdrop]
  simp [overwrite]

theorem set_overwrite (buffer : List Nat) (pos : Nat) (xs : List Nat) (b : Nat)
    (h : pos + xs.length < buffer.length) :
    (overwrite buffer pos xs).set (pos + xs.length) b = overwrite buffer pos (xs ++ [b]) := by
  rw [set_eq_overwrite _ _ _ (by rw [length_overwrite _ _ _ (by omega)]; exact h)]
  exact overwrite_append buffer pos xs [b] (by omega)

theorem AssignUWord8_eq (buffer : List Nat) (offset value : Nat) (h : offset < buffer.length) :
    AssignUWord8 buffer offset value = .ok (overwrite buffer offset [value % 256], offset + 1) := by
  unfold AssignUWord8
  rw [if_pos h, set_eq_overwrite buffer offset _ h]

theorem AssignUWord32_eq (buffer : List Nat) (offset value : Nat)
    (h : offset + 4 ≤ buffer.length) :
    AssignUWord32 buffer offset value
      = .ok (overwrite buffer offset (bigEndian32 value), offset + 4) := by
  unfold AssignUWord32 WriteBigEndian
  rw [if_pos h]
  simp only
  rw [set_eq_overwrite buffer offset _ (by omega)]
  have h1 := fun b => set_overwrite buffer offset [(value % 2 ^ 32) >>> 24 % 256] b
    (by simp only [List.length_singleton]; omega)
  have h2 := fun b => set_overwrite buffer offset
    [(value % 2 ^ 32) >>> 24 % 256, (value % 2 ^ 32) >>> 16 % 256] b
    (by simp only [List.length_cons, List.length_nil]; omega)
  have h3 := fun b => set_overwrite buffer offset
    [(value % 2 ^ 32) >>> 24 % 256, (value % 2 ^ 32) >>> 16 % 256,
      (value % 2 ^ 32) >>> 8 % 256] b
    (by simp only [List.length_cons, List.length_nil]; omega)
  simp only [List.length_cons, List.length_nil, Nat.zero_add, List.cons_append,
    List.nil_append] at h1 h2 h3
  rw [h1, h2, h3]
  simp only [bigEndian32, Nat.shiftRight_eq_div_pow]
  have e1 : value % 2 ^ 32 / 2 ^ 24 % 256 = value / 2 ^ 24 % 256 := by omega
  have e2 : value % 2 ^ 32 / 2 ^ 16 % 256 = value / 2 ^ 16 % 256 := by omega
  have e3 : value % 2 ^ 32 / 2 ^ 8 % 256 = value / 2 ^ 8 % 256 := by omega
  have e4 : value % 2 ^ 32 % 256 = value % 256 := by omega
  rw [e1, e2, e3, e4]


theorem CreateTmmbrItem_eq (tmmbr_item : RTCPPacketRTPFBTMMBRItem) (buffer : List Nat)
    (pos mantissa exp : Nat)
    (hq : ComputeMantissaAnd6bitBase2Exponent
      ((tmmbr_item.MaxTotalMediaBitRate * 1000) % 2 ^ 32) 17 = .ok (mantissa, exp))
    (h : pos + 8 ≤ buffer.length) :
    CreateTmmbrItem tmmbr_item buffer pos
      = .ok (overwrite buffer pos (itemBytes tmmbr_item mantissa exp), pos + 8) := by
  have e5 : ∀ (xs : List Nat) (b k : Nat), xs.length = k → pos + k < buffer.length →
      AssignUWord8 (overwrite buffer pos xs) (pos + k) b
        = .ok (overwrite buffer pos (xs ++ [b % 256]), pos + k + 1) := by
    intro xs b k hx hk
    rw [AssignUWord8_eq _ _ _ (by rw [length_overwrite _ _ _ (by omega)]; omega)]
    have := overwrite_append buffer pos xs [b % 256] (by omega)
    rw [hx] at this
    rw [this]
  unfold CreateTmmbrItem
  simp only [hq, bind, Except.bind]
  rw [AssignUWord32_eq buffer pos _ (by omega)]
  simp only
  rw [e5 _ _ 4 (by rfl) (by omega)]
  simp only
  rw [e5 _ _ 5 (by rfl) (by omega)]
  simp only
  rw [e5 _ _ 6 (by rfl) (by omega)]
  simp only
  rw [e5 _ _ 7 (by rfl) (by omega)]
  rfl

theorem bind_ok {α β : Type} {x : Except Fault α} {f : α → Except Fault β} {r : β}
    (h : (x >>= f) = .ok r) : ∃ a, x = .ok a ∧ f a = .ok r := by
  cases x with
  | error e => simp [bind, Except.bind] at h
  | ok a => exact ⟨a, rfl, h⟩

theorem AssignUWord8_inv {buffer : List Nat} {offset value : Nat} {r : List Nat × Nat}
    (h : AssignUWord8 buffer offset value = .ok r) :
    offset < buffer.length ∧ r.1.length = buffer.length ∧ r.2 = offset + 1 := by
  unfold AssignUWord8 at h
  by_cases hb : offset < buffer.length
  · rw [if_pos hb] at h
    cases h
    simp [hb]
  · rw [if_neg hb] at h
    cases h

theorem AssignUWord32_inv {buffer : List Nat} {offset value : Nat} {r : List Nat × Nat}
    (h : AssignUWord32 buffer offset value = .ok r) :
    offset + 4 ≤ buffer.length ∧ r.1.length = buffer.length ∧ r.2 = offset + 4 := by
  by_cases hb : offset + 4 ≤ buffer.length
  · rw [AssignUWord32_eq buffer offset value hb] at h
    cases h
    exact ⟨hb, length_overwrite _ _ _ (by simp [bigEndian32]; omega), rfl⟩
  · unfold AssignUWord32 WriteBigEndian at h
    rw [if_neg hb] at h
    cases h

theorem CreateTmmbrItem_inv {tmmbr_item : RTCPPacketRTPFBTMMBRItem} {buffer : List Nat}
    {pos : Nat} {r : List Nat × Nat} (h : CreateTmmbrItem tmmbr_item buffer pos = .ok r) :
    pos + 8 ≤ buffer.length := by
  unfold CreateTmmbrItem at h
  obtain ⟨⟨mantissa, exp⟩, _, h⟩ := bind_ok h
  obtain ⟨⟨b1, p1⟩, h1, h⟩ := bind_ok h
  obtain ⟨⟨b2, p2⟩, h2, h⟩ := bind_ok h
  obtain ⟨⟨b3, p3⟩, h3, h⟩ := bind_ok h
  obtain ⟨⟨b4, p4⟩, h4, h⟩ := bind_ok h
  have i1 := AssignUWord32_inv h1
  have i2 := AssignUWord8_inv h2
  have i3 := AssignUWord8_inv h3
  have i4 := AssignUWord8_inv h4
  have i5 := AssignUWord8_inv h
  simp only at i1 i2 i3 i4 i5
  omega

theorem overwrite_zero_full (buffer bytes : List Nat) (h : bytes.length = buffer.length) :
    overwrite buffer 0 bytes = bytes := by
  simp [overwrite, h]

theorem length_itemBytes (tmmbr_item : RTCPPacketRTPFBTMMBRItem) (mantissa exp : Nat) :
    (itemBytes tmmbr_item mantissa exp).length = 8 := rfl

theorem encodedTmmbrItem_eq (tmmbr_item : RTCPPacketRTPFBTMMBRItem) (mantissa exp : Nat)
    (hq : ComputeMantissaAnd6bitBase2Exponent
      ((tmmbr_item.MaxTotalMediaBitRate * 1000) % 2 ^ 32) 17 = .ok (mantissa, exp)) :
    encodedTmmbrItem tmmbr_item = itemBytes tmmbr_item mantissa exp := by
  unfold encodedTmmbrItem
  rw [CreateTmmbrItem_eq tmmbr_item _ 0 mantissa exp hq (by simp)]
  exact overwrite_zero_full _ _ (by simp [length_itemBytes])

theorem length_encodedTmmbrItem (tmmbr_item : RTCPPacketRTPFBTMMBRItem) :
    (encodedTmmbrItem tmmbr_item).length = 8 := by
  rw [encodedTmmbrItem_eq tmmbr_item _ _ (Compute17_eq _)]
  rfl

/-- The effect of `CreateTmmbrItem` wherever eight bytes are left in the buffer. -/
theorem CreateTmmbrItem_encoded (tmmbr_item : RTCPPacketRTPFBTMMBRItem) (buffer : List Nat)
    (pos : Nat) (h : pos + 8 ≤ buffer.length) :
    CreateTmmbrItem tmmbr_item buffer pos
      = .ok (overwrite buffer pos (encodedTmmbrItem tmmbr_item), pos + 8) := by
  rw [encodedTmmbrItem_eq tmmbr_item _ _ (Compute17_eq _)]
  exact CreateTmmbrItem_eq tmmbr_item buffer pos _ _ (Compute17_eq _) h

/-! ## The loop over the entries -/

theorem overwrite_nil (buffer : List Nat) (pos : Nat) : overwrite buffer pos [] = buffer := by
  simp [overwrite]

theorem length_flatten_encoded (items : List RTCPPacketRTPFBTMMBRItem) :
    ((items.map encodedTmmbrItem).flatten).length = 8 * items.length := by
  induction items with
  | nil => rfl
  | cons a l ih =>
    simp only [List.map_cons, List.flatten_cons, List.length_append, List.length_cons, ih,
      length_encodedTmmbrItem]
    omega

/-- With at most 255 entries, fuel for them and room in the buffer, the loop started
at counter `i` writes the encodings of the entries from `i` on, one after the other. -/
theorem CreateTmmbnLoop_run (items : List RTCPPacketRTPFBTMMBRItem) (hn : items.length ≤ 255) :
    ∀ (d i : Nat) (buffer : List Nat) (pos fuel : Nat), i + d = items.length → d < fuel →
      pos + 8 * d ≤ buffer.length →
      CreateTmmbnLoop items fuel i buffer pos
        = .ok (overwrite buffer pos (((items.drop i).map encodedTmmbrItem).flatten), pos + 8 * d) := by
  intro d
  induction d with
  | zero =>
    intro i buffer pos fuel hi hf _
    obtain ⟨f, rfl⟩ : ∃ f, fuel = f + 1 := ⟨fuel - 1, by omega⟩
    unfold CreateTmmbnLoop
    rw [dif_neg (by omega)]
    have : List.drop i items = [] := List.drop_eq_nil_of_le (by omega)
    rw [this]
    simp [overwrite_nil]
  | succ d ih =>
    intro i buffer pos fuel hi hf hpos
    obtain ⟨f, rfl⟩ : ∃ f, fuel = f + 1 := ⟨fuel - 1, by omega⟩
    have hlt : i < items.length := by omega
    unfold CreateTmmbnLoop
    rw [dif_pos hlt, CreateTmmbrItem_encoded _ buffer pos (by omega)]
    simp only
    rw [Nat.mod_eq_of_lt (by omega)]
    rw [ih (i + 1) _ (pos + 8) f (by omega) (by omega)
      (by rw [length_overwrite _ _ _ (by rw [length_encodedTmmbrItem]; omega)]; omega)]
    have hdrop : List.drop i items = items.get ⟨i, hlt⟩ :: List.drop (i + 1) items :=
      List.drop_eq_getElem_cons hlt
    have happ := overwrite_append buffer pos (encodedTmmbrItem (items.get ⟨i, hlt⟩))
      (((items.drop (i + 1)).map encodedTmmbrItem).flatten)
      (by rw [length_encodedTmmbrItem]; omega)
    rw [length_encodedTmmbrItem] at happ
    rw [happ, hdrop]
    simp only [List.map_cons, List.flatten_cons]
    congr 2
    omega

/-- A run of the loop that comes back has had at most 255 entries to write, room for
each of them and fuel for each iteration. -/
theorem CreateTmmbnLoop_inv (items : List RTCPPacketRTPFBTMMBRItem) :
    ∀ (fuel i : Nat) (buffer : List Nat) (pos : Nat) (r : List Nat × Nat),
      i ≤ items.length → i ≤ 255 → pos ≤ buffer.length →
      CreateTmmbnLoop items fuel i buffer pos = .ok r →
      items.length ≤ 255 ∧ pos + 8 * (items.length - i) ≤ buffer.length ∧
        items.length - i < fuel := by
  intro fuel
  induction fuel with
  | zero =>
    intro i buffer pos r _ _ _ h
    unfold CreateTmmbnLoop at h
    cases h
  | succ f ih =>
    intro i buffer pos r hi hi255 hpos h
    unfold CreateTmmbnLoop at h
    by_cases hlt : i < items.length
    · rw [dif_pos hlt] at h
      cases hitem : CreateTmmbrItem (items.get ⟨i, hlt⟩) buffer pos with
      | error e => rw [hitem] at h; cases h
      | ok r1 =>
        have hb := CreateTmmbrItem_inv hitem
        rw [CreateTmmbrItem_encoded _ buffer pos hb] at h
        simp only at h
        have hlen : (overwrite buffer pos (encodedTmmbrItem (items.get ⟨i, hlt⟩))).length
            = buffer.length :=
          length_overwrite _ _ _ (by rw [length_encodedTmmbrItem]; omega)
        by_cases h255 : i = 255
        · have h0 : (i + 1) % 256 = 0 := by omega
          rw [h0] at h
          have := ih 0 _ _ r (Nat.zero_le _) (Nat.zero_le _) (by omega) h
          omega
        · have h1 : (i + 1) % 256 = i + 1 := by omega
          rw [h1] at h
          have := ih (i + 1) _ _ r (by omega) (by omega) (by omega) h
          omega
    · omega

theorem length_tmmbnPayload (self : Tmmbn) :
    (tmmbnPayload self).length = 8 + 8 * self.tmmbn_items_.length := by
  simp only [tmmbnPayload, List.length_append, length_flatten_encoded, bigEndian32,
    List.length_cons, List.length_nil]

theorem CreateTmmbn_run (fuel : Nat) (tmmbn : RTCPPacketRTPFBTMMBN)
    (items : List RTCPPacketRTPFBTMMBRItem) (buffer : List Nat) (pos : Nat)
    (hn : items.length ≤ 255) (hf : items.length < fuel)
    (hpos : pos + 8 + 8 * items.length ≤ buffer.length) :
    CreateTmmbn fuel tmmbn items buffer pos
      = .ok (overwrite buffer pos (tmmbnPayload ⟨tmmbn, items⟩), pos + 8 + 8 * items.length) := by
  unfold CreateTmmbn
  simp only [bind, Except.bind]
  rw [AssignUWord32_eq buffer pos _ (by omega)]
  simp only
  have hl1 : (overwrite buffer pos (bigEndian32 tmmbn.SenderSSRC)).length = buffer.length :=
    length_overwrite _ _ _ (by simp only [bigEndian32, List.length_cons, List.length_nil]; omega)
  rw [AssignUWord32_eq _ (pos + 4) _ (by omega)]
  simp only
  have happ := overwrite_append buffer pos (bigEndian32 tmmbn.SenderSSRC)
    (bigEndian32 kUnusedMediaSourceSsrc0)
    (by simp only [bigEndian32, List.length_cons, List.length_nil]; omega)
  have hlen4 : (bigEndian32 tmmbn.SenderSSRC).length = 4 := rfl
  rw [hlen4] at happ
  rw [happ]
  have hl2 : (overwrite buffer pos
      (bigEndian32 tmmbn.SenderSSRC ++ bigEndian32 kUnusedMediaSourceSsrc0)).length
      = buffer.length :=
    length_overwrite _ _ _
      (by simp only [bigEndian32, List.length_append, List.length_cons, List.length_nil]; omega)
  rw [CreateTmmbnLoop_run items hn items.length 0 _ (pos + 4 + 4) fuel (by omega) hf
    (by omega)]
  have happ2 := overwrite_append buffer pos
    (bigEndian32 tmmbn.SenderSSRC ++ bigEndian32 kUnusedMediaSourceSsrc0)
    (((items.drop 0).map encodedTmmbrItem).flatten)
    (by simp only [bigEndian32, List.length_append, List.length_cons, List.length_nil]; omega)
  have hlen8 : (bigEndian32 tmmbn.SenderSSRC ++ bigEndian32 kUnusedMediaSourceSsrc0).length
      = 4 + 4 := rfl
  rw [hlen8, ← Nat.add_assoc] at happ2
  rw [happ2]
  rfl

theorem CreateTmmbn_inv {fuel : Nat} {tmmbn : RTCPPacketRTPFBTMMBN}
    {items : List RTCPPacketRTPFBTMMBRItem} {buffer : List Nat} {pos : Nat}
    {r : List Nat × Nat} (h : CreateTmmbn fuel tmmbn items buffer pos = .ok r) :
    items.length ≤ 255 ∧ items.length < fuel ∧ pos + 8 + 8 * items.length ≤ buffer.length := by
  unfold CreateTmmbn at h
  obtain ⟨⟨b1, p1⟩, h1, h⟩ := bind_ok h
  obtain ⟨⟨b2, p2⟩, h2, h⟩ := bind_ok h
  have i1 := AssignUWord32_inv h1
  have i2 := AssignUWord32_inv h2
  simp only at i1 i2 h
  have := CreateTmmbnLoop_inv items fuel 0 b2 p2 r (Nat.zero_le _) (Nat.zero_le _) (by omega) h
  omega

/-! ## The space loop of `Create` -/

/-- When invocation number `k` is the one that fails, the loop comes back with
`false` and with what that invocation left, provided the fuel reaches it. -/
theorem CreateSpaceLoop_fails {σ : Type} (base : RtcpPacket σ) (blockLength max_length : Nat) :
    ∀ (k fuel : Nat) (packet : List Nat) (index : Nat) (callback : σ),
      Tmmbn.CallbackFailsAt base blockLength max_length k packet index callback →
      Tmmbn.CreateSpaceLoop base blockLength max_length fuel packet index callback
        = if k < fuel then
            .ok (false, (Tmmbn.callbackOutcome base k packet index callback).2)
          else .error .outOfFuel := by
  intro k
  induction k with
  | zero =>
    intro fuel packet index callback h
    obtain ⟨hs, hf⟩ := h
    cases fuel with
    | zero => rfl
    | succ f =>
      unfold Tmmbn.CreateSpaceLoop
      rw [if_pos hs, if_pos (Nat.succ_pos f)]
      unfold Tmmbn.callbackOutcome
      cases hcb : base.OnBufferFull packet index callback with
      | mk b rest =>
        rw [hcb] at hf
        simp only at hf
        subst hf
        rfl
  | succ k ih =>
    intro fuel packet index callback h
    obtain ⟨hs, ht, hrest⟩ := h
    cases fuel with
    | zero => rfl
    | succ f =>
      unfold Tmmbn.CreateSpaceLoop
      rw [if_pos hs]
      unfold Tmmbn.callbackOutcome
      cases hcb : base.OnBufferFull packet index callback with
      | mk b rest =>
        obtain ⟨p, i, c⟩ := rest
        rw [hcb] at ht hrest
        simp only at ht hrest
        subst ht
        simp only
        rw [ih f p i c hrest]
        by_cases hk : k < f
        · rw [if_pos hk, if_pos (by omega)]
        · rw [if_neg hk, if_neg (by omega)]

/-- A run of the loop that comes back with `false` was ended by a failing
invocation, and carries what that invocation left. -/
theorem CreateSpaceLoop_false {σ : Type} (base : RtcpPacket σ) (blockLength max_length : Nat) :
    ∀ (fuel : Nat) (packet : List Nat) (index : Nat) (callback : σ)
      (rest : List Nat × Nat × σ),
      Tmmbn.CreateSpaceLoop base blockLength max_length fuel packet index callback
        = .ok (false, rest) →
      ∃ k, k < fuel ∧ Tmmbn.CallbackFailsAt base blockLength max_length k packet index callback ∧
        Tmmbn.callbackOutcome base k packet index callback = (false, rest) := by
  intro fuel
  induction fuel with
  | zero =>
    intro packet index callback rest h
    unfold Tmmbn.CreateSpaceLoop at h
    cases h
  | succ f ih =>
    intro packet index callback rest h
    unfold Tmmbn.CreateSpaceLoop at h
    by_cases hs : (index + blockLength) % 2 ^ 64 > max_length
    · rw [if_pos hs] at h
      cases hcb : base.OnBufferFull packet index callback with
      | mk b rest1 =>
        obtain ⟨p, i, c⟩ := rest1
        rw [hcb] at h
        cases b with
        | false =>
          simp only at h
          cases h
          exact ⟨0, Nat.succ_pos f, ⟨hs, by rw [hcb]⟩, hcb⟩
        | true =>
          simp only at h
          obtain ⟨k, hk, hfail, hout⟩ := ih p i c rest h
          refine ⟨k + 1, by omega, ⟨hs, by rw [hcb], ?_⟩, ?_⟩
          · rw [hcb]; exact hfail
          · unfold Tmmbn.callbackOutcome
            rw [hcb]
            exact hout
    · rw [if_neg hs] at h
      cases h

theorem CreateSpaceLoop_room {σ : Type} (base : RtcpPacket σ) (blockLength max_length : Nat)
    (fuel : Nat) (packet : List Nat) (index : Nat) (callback : σ)
    (h : index + blockLength ≤ max_length) :
    Tmmbn.CreateSpaceLoop base blockLength max_length (fuel + 1) packet index callback
      = .ok (true, packet, index, callback) := by
  unfold Tmmbn.CreateSpaceLoop
  rw [if_neg (by omega)]

/-- When the `size_t` sum of the test does not exceed `max_length`, the loop is left
at once, without an invocation of the callback. -/
theorem CreateSpaceLoop_skip {σ : Type} (base : RtcpPacket σ) (blockLength max_length : Nat)
    (fuel : Nat) (packet : List Nat) (index : Nat) (callback : σ)
    (h : (index + blockLength) % 2 ^ 64 ≤ max_length) :
    Tmmbn.CreateSpaceLoop base blockLength max_length (fuel + 1) packet index callback
      = .ok (true, packet, index, callback) := by
  unfold Tmmbn.CreateSpaceLoop
  rw [if_neg (by omega)]

/-! ## `Create` as a whole -/

theorem Create_of_loop_false {σ : Type} (base : RtcpPacket σ) (fuel : Nat) (self : Tmmbn)
    (packet : List Nat) (index max_length : Nat) (callback : σ) (rest : List Nat × Nat × σ)
    (h : Tmmbn.CreateSpaceLoop base (self.BlockLength base.kHeaderLength) max_length fuel
      packet index callback = .ok (false, rest)) :
    Tmmbn.Create base fuel self packet index max_length callback
      = .ok ⟨false, self, rest.1, rest.2.1, rest.2.2⟩ := by
  unfold Tmmbn.Create
  rw [h]

theorem Create_false_inv {σ : Type} (base : RtcpPacket σ) (fuel : Nat) (self : Tmmbn)
    (packet : List Nat) (index max_length : Nat) (callback : σ) (r : CreateResult σ)
    (h : Tmmbn.Create base fuel self packet index max_length callback = .ok r)
    (hr : r.ok = false) :
    Tmmbn.CreateSpaceLoop base (self.BlockLength base.kHeaderLength) max_length fuel
      packet index callback = .ok (false, r.packet, r.index, r.callback) ∧ r.builder = self := by
  unfold Tmmbn.Create at h
  cases hloop : Tmmbn.CreateSpaceLoop base (self.BlockLength base.kHeaderLength) max_length fuel
      packet index callback with
  | error e => rw [hloop] at h; cases h
  | ok res =>
    obtain ⟨b, p, i, c⟩ := res
    rw [hloop] at h
    cases b with
    | false =>
      simp only at h
      cases h
      exact ⟨rfl, rfl⟩
    | true =>
      simp only at h
      cases hh : base.CreateHeader 4 PT_RTPFB self.HeaderLength p i with
      | error e => rw [hh] at h; cases h
      | ok res1 =>
        obtain ⟨p1, i1⟩ := res1
        rw [hh] at h
        simp only at h
        cases ht : CreateTmmbn fuel self.tmmbn_ self.tmmbn_items_ p1 i1 with
        | error e => rw [ht] at h; cases h
        | ok res2 =>
          obtain ⟨p2, i2⟩ := res2
          rw [ht] at h
          simp only at h
          cases h
          cases hr

theorem Create_true_inv {σ : Type} (base : RtcpPacket σ) (fuel : Nat) (self : Tmmbn)
    (packet : List Nat) (index max_length : Nat) (callback : σ) (r : CreateResult σ)
    (h : Tmmbn.Create base fuel self packet index max_length callback = .ok r)
    (hr : r.ok = true) :
    ∃ (packet0 : List Nat) (index0 : Nat) (packet1 : List Nat) (index1 : Nat),
      Tmmbn.CreateSpaceLoop base (self.BlockLength base.kHeaderLength) max_length fuel
        packet index callback = .ok (true, packet0, index0, r.callback) ∧
      base.CreateHeader 4 PT_RTPFB self.HeaderLength packet0 index0 = .ok (packet1, index1) ∧
      CreateTmmbn fuel self.tmmbn_ self.tmmbn_items_ packet1 index1 = .ok (r.packet, r.index) ∧
      r.builder = self := by
  unfold Tmmbn.Create at h
  cases hloop : Tmmbn.CreateSpaceLoop base (self.BlockLength base.kHeaderLength) max_length fuel
      packet index callback with
  | error e => rw [hloop] at h; cases h
  | ok res =>
    obtain ⟨b, p, i, c⟩ := res
    rw [hloop] at h
    cases b with
    | false =>
      simp only at h
      cases h
      cases hr
    | true =>
      simp only at h
      cases hh : base.CreateHeader 4 PT_RTPFB self.HeaderLength p i with
      | error e => rw [hh] at h; cases h
      | ok res1 =>
        obtain ⟨p1, i1⟩ := res1
        rw [hh] at h
        simp only at h
        cases ht : CreateTmmbn fuel self.tmmbn_ self.tmmbn_items_ p1 i1 with
        | error e => rw [ht] at h; cases h
        | ok res2 =>
          obtain ⟨p2, i2⟩ := res2
          rw [ht] at h
          simp only at h
          cases h
          exact ⟨p, i, p1, i1, rfl, hh, ht, rfl⟩

/-- With room in the buffer from the start, `Create` succeeds without a single
invocation of the callback and writes header and payload back to back. -/
theorem Create_of_room {σ : Type} (base : RtcpPacket σ) (fuel : Nat) (self : Tmmbn)
    (packet : List Nat) (index max_length : Nat) (callback : σ)
    (hroom : index + self.BlockLength base.kHeaderLength ≤ max_length)
    (hhdr : base.HeaderWriterOk) (hlen : max_length ≤ packet.length)
    (hn : self.tmmbn_items_.length ≤ 255) (hf : self.tmmbn_items_.length < fuel) :
    ∃ header : List Nat, header.length = base.kHeaderLength ∧
      Tmmbn.Create base fuel self packet index max_length callback
        = .ok ⟨true, self, overwrite packet index (header ++ tmmbnPayload self),
            index + self.BlockLength base.kHeaderLength, callback⟩ := by
  have hBL : self.BlockLength base.kHeaderLength
      = base.kHeaderLength + 8 + 8 * self.tmmbn_items_.length := rfl
  obtain ⟨f, rfl⟩ : ∃ f, fuel = f + 1 := ⟨fuel - 1, by omega⟩
  obtain ⟨header, hh1, hh2⟩ := hhdr 4 PT_RTPFB self.HeaderLength packet index (by omega)
  refine ⟨header, hh1, ?_⟩
  unfold Tmmbn.Create
  rw [CreateSpaceLoop_room base _ max_length f packet index callback hroom]
  simp only
  rw [hh2]
  simp only
  have hl : (overwrite packet index header).length = packet.length :=
    length_overwrite _ _ _ (by omega)
  rw [CreateTmmbn_run (f + 1) self.tmmbn_ self.tmmbn_items_ _ _ hn hf (by omega)]
  simp only
  have happ := overwrite_append packet index header (tmmbnPayload self) (by omega)
  rw [hh1] at happ
  rw [happ, hBL]
  congr 2
  omega

theorem sampleBase_HeaderWriterOk : sampleBase.HeaderWriterOk := by
  intro format packet_type length buffer pos h
  refine ⟨[(2 * 64 + format) % 256, packet_type % 256, length / 256 % 256, length % 256],
    rfl, ?_⟩
  have h4 : pos + 4 ≤ buffer.length := h
  show (if pos + 4 ≤ buffer.length then _ else _) = _
  rw [if_pos h4]
  rfl

/-! ## The entry layout in arithmetic form -/

theorem and_three (x : Nat) : x &&& 0x03 = x % 4 := Nat.and_pow_two_sub_one_eq_mod x 2

theorem and_one (x : Nat) : x &&& 0x01 = x % 2 := Nat.and_pow_two_sub_one_eq_mod x 1

theorem shiftLeft_one_or (m c : Nat) (h : c < 2) : (m <<< 1) ||| c = 2 * m + c := by
  rw [Nat.shiftLeft_eq, Nat.mul_comm]
  exact (Nat.mul_add_lt_is_or (i := 1) (by simpa using h) m).symm

/-- The bytes of `itemBytes` with shifts and masks turned into division and
remainder, for a six-bit exponent and a nine-bit overhead. -/
theorem itemBytes_arith (tmmbr_item : RTCPPacketRTPFBTMMBRItem) (mantissa exp : Nat)
    (hexp : exp < 64) (hov : tmmbr_item.MeasuredOverhead ≤ 511) :
    itemBytes tmmbr_item mantissa exp =
      [tmmbr_item.SSRC / 2 ^ 24 % 256, tmmbr_item.SSRC / 2 ^ 16 % 256,
       tmmbr_item.SSRC / 2 ^ 8 % 256, tmmbr_item.SSRC % 256,
       exp * 4 + mantissa / 2 ^ 15 % 4,
       mantissa / 2 ^ 7 % 256,
       (2 * mantissa + tmmbr_item.MeasuredOverhead / 256) % 256,
       tmmbr_item.MeasuredOverhead % 256] := by
  have b5 : ((exp <<< 2) + ((mantissa >>> 15) &&& 0x03)) % 256
      = exp * 4 + mantissa / 2 ^ 15 % 4 := by
    rw [and_three, Nat.shiftLeft_eq, Nat.shiftRight_eq_div_pow]
    omega
  have b6 : (mantissa >>> 7) % 256 = mantissa / 2 ^ 7 % 256 := by
    rw [Nat.shiftRight_eq_div_pow]
  have b7 : ((shl32 mantissa 1 + ((tmmbr_item.MeasuredOverhead >>> 8) &&& 0x01)) % 2 ^ 32) % 256
      = (2 * mantissa + tmmbr_item.MeasuredOverhead / 256) % 256 := by
    rw [and_one]
    unfold shl32
    rw [Nat.shiftLeft_eq, Nat.shiftRight_eq_div_pow]
    omega
  unfold itemBytes bigEndian32
  rw [b5, b6, b7]
  rfl

theorem drop_overwrite (buffer : List Nat) (pos : Nat) (bytes : List Nat)
    (h : pos ≤ buffer.length) :
    (overwrite buffer pos bytes).drop pos = bytes ++ buffer.drop (pos + bytes.length) := by
  have hlen : (List.take pos buffer).length = pos := by
    rw [List.length_take]; omega
  unfold overwrite
  rw [List.append_assoc]
  conv => lhs; arg 1; rw [← hlen]
  rw [List.drop_left]

/-! ## Properties of the specification -/

/-- C1: for an entry whose overhead is at most 511, with `(mantissa, exp)` the result
of `ComputeMantissaAnd6bitBase2Exponent (bitrate_kbps * 1000 mod 2^32) 17`,
`CreateTmmbrItem` writes exactly eight bytes from `pos` and advances `pos` by
eight: the SSRC in big-endian order, then a byte with `exp` (below 64) in its
top six bits and mantissa bits 16..15 in its low two bits, then mantissa bits
14..7, then `((mantissa << 1) | (overhead >> 8))` cut to eight bits, then the
low eight bits of the overhead. -/
theorem C1_CreateTmmbrItem_layout (tmmbr_item : RTCPPacketRTPFBTMMBRItem)
    (buffer : List Nat) (pos : Nat) (hov : tmmbr_item.MeasuredOverhead ≤ 511)
    (hpos : pos + 8 ≤ buffer.length) :
    ∃ mantissa exp,
      ComputeMantissaAnd6bitBase2Exponent
        ((tmmbr_item.MaxTotalMediaBitRate * 1000) % 2 ^ 32) 17 = .ok (mantissa, exp) ∧
      exp < 64 ∧
      CreateTmmbrItem tmmbr_item buffer pos = .ok (overwrite buffer pos
        [tmmbr_item.SSRC / 2 ^ 24 % 256, tmmbr_item.SSRC / 2 ^ 16 % 256,
         tmmbr_item.SSRC / 2 ^ 8 % 256, tmmbr_item.SSRC % 256,
         exp * 4 + mantissa / 2 ^ 15 % 4,
         mantissa / 2 ^ 7 % 256,
         ((mantissa <<< 1) ||| (tmmbr_item.MeasuredOverhead >>> 8)) % 256,
         tmmbr_item.MeasuredOverhead % 256], pos + 8) := by
  have hexp := findExponent_lt ((tmmbr_item.MaxTotalMediaBitRate * 1000) % 2 ^ 32) 131071 64 0
    (Nat.le_refl _)
  refine ⟨_, _, Compute17_eq _, hexp, ?_⟩
  rw [CreateTmmbrItem_eq tmmbr_item buffer pos _ _ (Compute17_eq _) hpos,
    itemBytes_arith tmmbr_item _ _ hexp hov,
    shiftLeft_one_or _ (tmmbr_item.MeasuredOverhead >>> 8)
      (by rw [Nat.shiftRight_eq_div_pow]; omega),
    Nat.shiftRight_eq_div_pow]

/-- C1 at the entry `(0x11223344, 1000, 40)` written at offset 2 of a ten-byte buffer. -/
theorem C1_CreateTmmbrItem_layout_witness :
    ∃ mantissa exp,
      ComputeMantissaAnd6bitBase2Exponent ((1000 * 1000) % 2 ^ 32) 17 = .ok (mantissa, exp) ∧
      exp < 64 ∧
      CreateTmmbrItem ⟨0x11223344, 1000, 40⟩ (List.replicate 10 0) 2
        = .ok (overwrite (List.replicate 10 0) 2
        [0x11223344 / 2 ^ 24 % 256, 0x11223344 / 2 ^ 16 % 256,
         0x11223344 / 2 ^ 8 % 256, 0x11223344 % 256,
         exp * 4 + mantissa / 2 ^ 15 % 4,
         mantissa / 2 ^ 7 % 256,
         ((mantissa <<< 1) ||| (40 >>> 8)) % 256,
         40 % 256], 2 + 8) :=
  C1_CreateTmmbrItem_layout ⟨0x11223344, 1000, 40⟩ (List.replicate 10 0) 2
    (by decide) (by decide)

/-- C2, as the spec words it, fails: for the entry `(0x11223344, 1000, 40)` the
quantizer gives mantissa 125000 and the seventh byte written is 144, which is
not "mantissa bit 0 in the top bit and overhead bits 8..2 in the low seven". -/
theorem C2_spec_reading_refuted :
    ∃ bytes b7,
      ComputeMantissaAnd6bitBase2Exponent ((1000 * 1000) % 2 ^ 32) 17 = .ok (125000, 3) ∧
      CreateTmmbrItem ⟨0x11223344, 1000, 40⟩ (List.replicate 8 0) 0 = .ok (bytes, 8) ∧
      bytes[6]? = some b7 ∧ ¬ seventhByteAsSpecified 125000 40 b7 :=
  ⟨[17, 34, 51, 68, 15, 208, 144, 40], 144, by rfl, by rfl, by rfl,
    by unfold seventhByteAsSpecified; decide⟩

/-- C2, amended: for an entry whose overhead is at most 511, the seventh of the
eight bytes written carries mantissa bits 6..0 in its top seven bits and
overhead bit 8 in its lowest bit. -/
theorem C2_seventh_byte (tmmbr_item : RTCPPacketRTPFBTMMBRItem)
    (buffer : List Nat) (pos : Nat) (hov : tmmbr_item.MeasuredOverhead ≤ 511)
    (hpos : pos + 8 ≤ buffer.length) :
    ∃ mantissa exp bytes b7,
      ComputeMantissaAnd6bitBase2Exponent
        ((tmmbr_item.MaxTotalMediaBitRate * 1000) % 2 ^ 32) 17 = .ok (mantissa, exp) ∧
      CreateTmmbrItem tmmbr_item buffer pos = .ok (overwrite buffer pos bytes, pos + 8) ∧
      bytes.length = 8 ∧ bytes[6]? = some b7 ∧
      b7 < 256 ∧ b7 / 2 = mantissa % 128 ∧ b7 % 2 = tmmbr_item.MeasuredOverhead / 256 := by
  have hexp := findExponent_lt ((tmmbr_item.MaxTotalMediaBitRate * 1000) % 2 ^ 32) 131071 64 0
    (Nat.le_refl _)
  refine ⟨_, _, _,
    (2 * (((tmmbr_item.MaxTotalMediaBitRate * 1000) % 2 ^ 32) /
      2 ^ findExponent ((tmmbr_item.MaxTotalMediaBitRate * 1000) % 2 ^ 32) 131071 64 0)
      + tmmbr_item.MeasuredOverhead / 256) % 256,
    Compute17_eq _,
    CreateTmmbrItem_eq tmmbr_item buffer pos _ _ (Compute17_eq _) hpos, rfl, ?_, ?_⟩
  · rw [itemBytes_arith tmmbr_item _ _ hexp hov]
    rfl
  · omega

/-- C2 (amended) at the entry `(0x11223344, 1000, 40)`. -/
theorem C2_seventh_byte_witness :
    ∃ mantissa exp bytes b7,
      ComputeMantissaAnd6bitBase2Exponent ((1000 * 1000) % 2 ^ 32) 17 = .ok (mantissa, exp) ∧
      CreateTmmbrItem ⟨0x11223344, 1000, 40⟩ (List.replicate 8 0) 0
        = .ok (overwrite (List.replicate 8 0) 0 bytes, 0 + 8) ∧
      bytes.length = 8 ∧ bytes[6]? = some b7 ∧
      b7 < 256 ∧ b7 / 2 = mantissa % 128 ∧ b7 % 2 = 40 / 256 :=
  C2_seventh_byte ⟨0x11223344, 1000, 40⟩ (List.replicate 8 0) 0 (by decide) (by decide)

theorem decode_mantissa (m : Nat) (hm : m < 2 ^ 17) :
    (((m / 2 ^ 15 % 4) <<< 15) ||| ((m / 2 ^ 7 % 256) <<< 7)) ||| (m % 128) = m := by
  rw [Nat.shiftLeft_eq, Nat.shiftLeft_eq, Nat.mul_comm _ (2 ^ 15), Nat.mul_comm _ (2 ^ 7)]
  rw [← Nat.mul_add_lt_is_or (i := 15) (by omega)]
  have : 2 ^ 15 * (m / 2 ^ 15 % 4) + 2 ^ 7 * (m / 2 ^ 7 % 256)
      = 2 ^ 7 * (2 ^ 8 * (m / 2 ^ 15 % 4) + m / 2 ^ 7 % 256) := by omega
  rw [this, ← Nat.mul_add_lt_is_or (i := 7) (by omega)]
  omega

/-- C3: round trip.  For an entry with a 32-bit SSRC, overhead at most 511 and
`bitrate_kbps * 1000 ≤ 131071 * 2^15`, decoding the eight bytes that
`CreateTmmbrItem` writes gives back the SSRC and exactly the pair
`(mantissa, exp)` that the quantizer computes from `bitrate_kbps * 1000`. -/
theorem C3_round_trip (tmmbr_item : RTCPPacketRTPFBTMMBRItem) (buffer : List Nat) (pos : Nat)
    (hov : tmmbr_item.MeasuredOverhead ≤ 511)
    (hrate : tmmbr_item.MaxTotalMediaBitRate * 1000 ≤ 131071 * 2 ^ 15)
    (hssrc : tmmbr_item.SSRC < 2 ^ 32) (hpos : pos + 8 ≤ buffer.length) :
    ∃ mantissa exp packet,
      ComputeMantissaAnd6bitBase2Exponent (tmmbr_item.MaxTotalMediaBitRate * 1000) 17
        = .ok (mantissa, exp) ∧
      CreateTmmbrItem tmmbr_item buffer pos = .ok (packet, pos + 8) ∧
      decodeTmmbrItem ((packet.drop pos).take 8) = some (tmmbr_item.SSRC, mantissa, exp) := by
  have hmod : (tmmbr_item.MaxTotalMediaBitRate * 1000) % 2 ^ 32
      = tmmbr_item.MaxTotalMediaBitRate * 1000 := Nat.mod_eq_of_lt (by omega)
  obtain ⟨mantissa, exp, hq, _, hexp, _, _, hman⟩ :=
    quantizer_in_range (tmmbr_item.MaxTotalMediaBitRate * 1000) 17 (by norm_num)
      (by norm_num; omega)
  refine ⟨mantissa, exp, _, hq, CreateTmmbrItem_eq tmmbr_item buffer pos mantissa exp
    (by rw [hmod]; exact hq) hpos, ?_⟩
  rw [drop_overwrite buffer pos _ (by omega), itemBytes_arith tmmbr_item _ _ (by omega) hov]
  simp only [List.cons_append, List.nil_append, List.take_succ_cons, List.take_zero,
    decodeTmmbrItem]
  have hs : tmmbr_item.SSRC / 2 ^ 24 % 256 * 2 ^ 24 + tmmbr_item.SSRC / 2 ^ 16 % 256 * 2 ^ 16
      + tmmbr_item.SSRC / 2 ^ 8 % 256 * 2 ^ 8 + tmmbr_item.SSRC % 256 = tmmbr_item.SSRC := by
    omega
  have h5 : (exp * 4 + mantissa / 2 ^ 15 % 4) &&& 3 = mantissa / 2 ^ 15 % 4 := by
    rw [and_three]; omega
  have h7 : ((2 * mantissa + tmmbr_item.MeasuredOverhead / 256) % 256) >>> 1
      = mantissa % 128 := by
    rw [Nat.shiftRight_eq_div_pow]; omega
  have he : (exp * 4 + mantissa / 2 ^ 15 % 4) >>> 2 = exp := by
    rw [Nat.shiftRight_eq_div_pow]; omega
  rw [hs, h5, h7, he, decode_mantissa mantissa hman]

/-- C3 at the entry `(0x11223344, 1000, 40)`. -/
theorem C3_round_trip_witness :
    ∃ mantissa exp packet,
      ComputeMantissaAnd6bitBase2Exponent (1000 * 1000) 17 = .ok (mantissa, exp) ∧
      CreateTmmbrItem ⟨0x11223344, 1000, 40⟩ (List.replicate 10 0) 2 = .ok (packet, 2 + 8) ∧
      decodeTmmbrItem ((packet.drop 2).take 8) = some (0x11223344, mantissa, exp) :=
  C3_round_trip ⟨0x11223344, 1000, 40⟩ (List.replicate 10 0) 2
    (by decide) (by decide) (by decide) (by decide)

/-- C4: for `v ≤ 131071 * 2^15` the quantizer with a 17-bit mantissa returns the
smallest `exp` with `v ≤ 131071 * 2^exp` and `mantissa = v / 2^exp`; and
`131071 * 2^15` is the largest of the 32-bit values `131071 << i` that the
loop compares with. -/
theorem C4_smallest_exponent (v : Nat) (hv : v ≤ 131071 * 2 ^ 15) :
    (∃ mantissa exp, ComputeMantissaAnd6bitBase2Exponent v 17 = .ok (mantissa, exp) ∧
      v ≤ 131071 * 2 ^ exp ∧ (∀ e, v ≤ 131071 * 2 ^ e → exp ≤ e) ∧ mantissa = v / 2 ^ exp) ∧
    ∀ i, i < 64 → shl32 131071 i ≤ 131071 * 2 ^ 15 := by
  constructor
  · obtain ⟨mantissa, exp, hq, h1, _, h3, h4, _⟩ :=
      quantizer_in_range v 17 (by norm_num) (by norm_num; omega)
    exact ⟨mantissa, exp, hq, by simpa using h1, fun e he => h3 e (by simpa using he), h4⟩
  · decide

/-- C4 at `v = 1000000`. -/
theorem C4_smallest_exponent_witness :
    (∃ mantissa exp, ComputeMantissaAnd6bitBase2Exponent 1000000 17 = .ok (mantissa, exp) ∧
      1000000 ≤ 131071 * 2 ^ exp ∧ (∀ e, 1000000 ≤ 131071 * 2 ^ e → exp ≤ e) ∧
      mantissa = 1000000 / 2 ^ exp) ∧
    ∀ i, i < 64 → shl32 131071 i ≤ 131071 * 2 ^ 15 :=
  C4_smallest_exponent 1000000 (by decide)

/-- C5, the code at the failing input: for `bitrate_kbps = 4294967` the 32-bit
product is 4294967000, no `131071 << i` reaches it, and the quantizer returns
exponent 0 with the whole input as mantissa, which does not fit in 17 bits.
Reading the shifts by 32 and more with the count taken modulo 32 instead, no
comparison succeeds either.  The entry that `CreateTmmbrItem` then writes
decodes to mantissa 130776 with exponent 0. -/
theorem C5_mantissa_exceeds_17_bits :
    ComputeMantissaAnd6bitBase2Exponent ((4294967 * 1000) % 2 ^ 32) 17
      = .ok (4294967000, 0) ∧ ¬ 4294967000 < 2 ^ 17 ∧
    (∀ i, i < 64 → ¬ 4294967000 ≤ shl32 131071 i) ∧
    (∀ i, i < 64 → ¬ 4294967000 ≤ shl32 131071 (i % 32)) ∧
    CreateTmmbrItem ⟨1, 4294967, 0⟩ (List.replicate 8 0) 0
      = .ok ([0, 0, 0, 1, 3, 253, 176, 0], 8) ∧
    decodeTmmbrItem [0, 0, 0, 1, 3, 253, 176, 0] = some (1, 130776, 0) := by
  refine ⟨by rfl, by decide, by decide, by decide, by rfl, by rfl⟩

/-- C6, as the spec words it, fails: for `v = 134217000` the quantizer returns
`(65535, 11)`, that is 134215680, although `131071 * 2^10 = 134216704` is also
of the form `a * 2^b` with `a < 2^17`, does not exceed `v` and is larger. -/
theorem C6_not_largest_counterexample :
    ComputeMantissaAnd6bitBase2Exponent 134217000 17 = .ok (65535, 11) ∧
    ¬ IsLargestRepresentable 17 0 134217000 (65535 * 2 ^ 11) := by
  refine ⟨by rfl, ?_⟩
  intro h
  have := h.2 131071 10 (by norm_num) (by norm_num) (by norm_num) (by norm_num)
  norm_num at this

/-- C6, amended: for every mantissa width `m ≤ 32` and every
`v ≤ (2^m - 1) * 2^(32 - m)`, the returned `exp` is the smallest `e` with
`v ≤ (2^m - 1) * 2^e`, and `mantissa * 2^exp` is the largest value not above
`v` of the form `a * 2^b` with `a < 2^m` and `exp ≤ b ≤ 63`. -/
theorem C6_largest_multiple (v m : Nat) (hm : m ≤ 32) (hv : v ≤ (2 ^ m - 1) * 2 ^ (32 - m)) :
    ∃ mantissa exp, ComputeMantissaAnd6bitBase2Exponent v m = .ok (mantissa, exp) ∧
      v ≤ (2 ^ m - 1) * 2 ^ exp ∧ (∀ e, v ≤ (2 ^ m - 1) * 2 ^ e → exp ≤ e) ∧
      IsLargestRepresentable m exp v (mantissa * 2 ^ exp) := by
  obtain ⟨mantissa, exp, hq, h1, h2, h3, h4, h5⟩ := quantizer_in_range v m hm hv
  refine ⟨mantissa, exp, hq, h1, h3, ⟨?_, mantissa, exp, h5, Nat.le_refl _, by omega, rfl⟩, ?_⟩
  · rw [h4]; exact Nat.div_mul_le_self v (2 ^ exp)
  · intro a b _ hb _ hab
    have hpow : 2 ^ b = 2 ^ (b - exp) * 2 ^ exp := by
      rw [← Nat.pow_add]; congr 1; omega
    rw [hpow, ← Nat.mul_assoc] at hab ⊢
    have hpos : 0 < 2 ^ exp := Nat.pow_pos (by norm_num)
    have : a * 2 ^ (b - exp) ≤ v / 2 ^ exp := (Nat.le_div_iff_mul_le hpos).mpr hab
    rw [h4]
    exact Nat.mul_le_mul_right _ this

/-- C6 (amended) at `v = 134217000`, `m = 17`. -/
theorem C6_largest_multiple_witness :
    ∃ mantissa exp, ComputeMantissaAnd6bitBase2Exponent 134217000 17 = .ok (mantissa, exp) ∧
      134217000 ≤ (2 ^ 17 - 1) * 2 ^ exp ∧ (∀ e, 134217000 ≤ (2 ^ 17 - 1) * 2 ^ e → exp ≤ e) ∧
      IsLargestRepresentable 17 exp 134217000 (mantissa * 2 ^ exp) :=
  C6_largest_multiple 134217000 17 (by decide) (by decide)

/-- C7: when `Create` succeeds, the header writer having left buffer `packet1` and
index `index1`, the bytes written from `index1` on are exactly the sender SSRC
in big-endian order, four zero bytes and then the eight-byte encodings of the
entries in insertion order, back to back; the index ends right after them; the
rest of the buffer is as the header writer left it.  With no entry the payload
is the eight-byte prefix alone. -/
theorem C7_payload_after_header {σ : Type} (base : RtcpPacket σ) (fuel : Nat) (self : Tmmbn)
    (packet : List Nat) (index max_length : Nat) (callback : σ) (r : CreateResult σ)
    (h : Tmmbn.Create base fuel self packet index max_length callback = .ok r)
    (hok : r.ok = true) :
    ∃ (packet0 : List Nat) (index0 : Nat) (packet1 : List Nat) (index1 : Nat),
      Tmmbn.CreateSpaceLoop base (self.BlockLength base.kHeaderLength) max_length fuel
        packet index callback = .ok (true, packet0, index0, r.callback) ∧
      base.CreateHeader 4 PT_RTPFB self.HeaderLength packet0 index0 = .ok (packet1, index1) ∧
      index1 + 8 + 8 * self.tmmbn_items_.length ≤ packet1.length ∧
      r.packet = overwrite packet1 index1
        (bigEndian32 self.tmmbn_.SenderSSRC ++ [0, 0, 0, 0] ++
          (self.tmmbn_items_.map encodedTmmbrItem).flatten) ∧
      r.index = index1 + 8 + 8 * self.tmmbn_items_.length ∧
      (self.tmmbn_items_ = [] →
        r.packet = overwrite packet1 index1 (bigEndian32 self.tmmbn_.SenderSSRC ++ [0, 0, 0, 0]) ∧
        r.index = index1 + 8) := by
  obtain ⟨packet0, index0, packet1, index1, hloop, hhdr, hbody, _⟩ :=
    Create_true_inv base fuel self packet index max_length callback r h hok
  obtain ⟨hn, hf, hroom⟩ := CreateTmmbn_inv hbody
  have hrun := CreateTmmbn_run fuel self.tmmbn_ self.tmmbn_items_ packet1 index1 hn hf hroom
  rw [hbody] at hrun
  have hp : r.packet = overwrite packet1 index1 (tmmbnPayload ⟨self.tmmbn_, self.tmmbn_items_⟩) :=
    congrArg Prod.fst (Except.ok.inj hrun)
  have hi : r.index = index1 + 8 + 8 * self.tmmbn_items_.length :=
    congrArg Prod.snd (Except.ok.inj hrun)
  refine ⟨packet0, index0, packet1, index1, hloop, hhdr, hroom, hp, hi, ?_⟩
  intro hnil
  rw [hp, hi, hnil]
  simp [tmmbnPayload, hnil]

/-- C7 on a run of the sample builder (two entries) into a 40-byte buffer from
index 3. -/
theorem C7_payload_after_header_witness :
    ∃ (packet0 : List Nat) (index0 : Nat) (packet1 : List Nat) (index1 : Nat),
      Tmmbn.CreateSpaceLoop sampleBase (sampleTmmbn.BlockLength sampleBase.kHeaderLength) 40 10
        (List.replicate 40 9) 3 0 = .ok (true, packet0, index0, 0) ∧
      sampleBase.CreateHeader 4 PT_RTPFB sampleTmmbn.HeaderLength packet0 index0
        = .ok (packet1, index1) ∧
      index1 + 8 + 8 * sampleTmmbn.tmmbn_items_.length ≤ packet1.length ∧
      [9, 9, 9, 132, 205, 0, 6, 1, 2, 3, 4, 0, 0, 0, 0, 17, 34, 51, 68, 15, 208, 144, 40,
        85, 102, 119, 136, 45, 255, 255, 255, 9, 9, 9, 9, 9, 9, 9, 9, 9]
        = overwrite packet1 index1
        (bigEndian32 sampleTmmbn.tmmbn_.SenderSSRC ++ [0, 0, 0, 0] ++
          (sampleTmmbn.tmmbn_items_.map encodedTmmbrItem).flatten) ∧
      31 = index1 + 8 + 8 * sampleTmmbn.tmmbn_items_.length ∧
      (sampleTmmbn.tmmbn_items_ = [] →
        [9, 9, 9, 132, 205, 0, 6, 1, 2, 3, 4, 0, 0, 0, 0, 17, 34, 51, 68, 15, 208, 144, 40,
          85, 102, 119, 136, 45, 255, 255, 255, 9, 9, 9, 9, 9, 9, 9, 9, 9]
          = overwrite packet1 index1 (bigEndian32 sampleTmmbn.tmmbn_.SenderSSRC ++ [0, 0, 0, 0]) ∧
        31 = index1 + 8) :=
  C7_payload_after_header sampleBase 10 sampleTmmbn (List.replicate 40 9) 3 40 0
    ⟨true, sampleTmmbn,
      [9, 9, 9, 132, 205, 0, 6, 1, 2, 3, 4, 0, 0, 0, 0, 17, 34, 51, 68, 15, 208, 144, 40,
        85, 102, 119, 136, 45, 255, 255, 255, 9, 9, 9, 9, 9, 9, 9, 9, 9], 31, 0⟩
    (by rfl) rfl

/-- C8: `Create` returns failure exactly when some invocation of `OnBufferFull`,
made while `index + BlockLength() > max_length` (the `size_t` sum that line 108
tests), returns failure, and it does return failure once the fuel reaches that
invocation.  When that sum does not exceed `max_length` at the call, the loop
is left at once and the callback is not invoked.  In particular, when
`index + BlockLength() ≤ max_length` at the call (the buffer holding
`max_length` bytes, the header writer doing its part and at most 255 entries
being stored), the callback is not invoked - its state comes back untouched -
and `Create` returns success. -/
theorem C8_failure_iff_callback_fails {σ : Type} (base : RtcpPacket σ) (fuel : Nat)
    (self : Tmmbn) (packet : List Nat) (index max_length : Nat) (callback : σ) :
    (∀ r, Tmmbn.Create base fuel self packet index max_length callback = .ok r →
      (r.ok = false ↔ ∃ k, Tmmbn.CallbackFailsAt base (self.BlockLength base.kHeaderLength)
        max_length k packet index callback)) ∧
    (∀ k, Tmmbn.CallbackFailsAt base (self.BlockLength base.kHeaderLength)
        max_length k packet index callback → k < fuel →
      ∃ r, Tmmbn.Create base fuel self packet index max_length callback = .ok r ∧
        r.ok = false) ∧
    ((index + self.BlockLength base.kHeaderLength) % 2 ^ 64 ≤ max_length →
      (∀ k, ¬ Tmmbn.CallbackFailsAt base (self.BlockLength base.kHeaderLength)
        max_length k packet index callback) ∧
      ∀ fuel0, Tmmbn.CreateSpaceLoop base (self.BlockLength base.kHeaderLength) max_length
        (fuel0 + 1) packet index callback = .ok (true, packet, index, callback)) ∧
    (index + self.BlockLength base.kHeaderLength ≤ max_length → base.HeaderWriterOk →
      max_length ≤ packet.length → self.tmmbn_items_.length ≤ 255 →
      self.tmmbn_items_.length < fuel →
      ∃ r, Tmmbn.Create base fuel self packet index max_length callback = .ok r ∧
        r.ok = true ∧ r.callback = callback) := by
  refine ⟨?_, ?_, ?_, ?_⟩
  · intro r h
    constructor
    · intro hr
      obtain ⟨hloop, _⟩ := Create_false_inv base fuel self packet index max_length callback r h hr
      obtain ⟨k, _, hk, _⟩ := CreateSpaceLoop_false base _ max_length fuel packet index callback
        _ hloop
      exact ⟨k, hk⟩
    · rintro ⟨k, hk⟩
      have hloop := CreateSpaceLoop_fails base _ max_length k fuel packet index callback hk
      by_cases hkf : k < fuel
      · rw [if_pos hkf] at hloop
        rw [Create_of_loop_false base fuel self packet index max_length callback _ hloop] at h
        cases h
        rfl
      · rw [if_neg hkf] at hloop
        unfold Tmmbn.Create at h
        rw [hloop] at h
        cases h
  · intro k hk hkf
    have hloop := CreateSpaceLoop_fails base _ max_length k fuel packet index callback hk
    rw [if_pos hkf] at hloop
    exact ⟨_, Create_of_loop_false base fuel self packet index max_length callback _ hloop, rfl⟩
  · intro htest
    refine ⟨?_, fun fuel0 => CreateSpaceLoop_skip base _ max_length fuel0 packet index callback
      htest⟩
    intro k hk
    cases k with
    | zero => exact absurd hk.1 (by omega)
    | succ k => exact absurd hk.1 (by omega)
  · intro hroom hhdr hlen hn hf
    obtain ⟨header, _, hc⟩ :=
      Create_of_room base fuel self packet index max_length callback hroom hhdr hlen hn hf
    exact ⟨_, hc, rfl, rfl⟩

/-- C8 on runs of the sample builder: with room from the start `Create` succeeds
and the invocation counter stays at 0; with a 20-byte limit the second
invocation fails and so does `Create`; and from index `2^64 - 10` the `size_t`
sum of the test is 18, so the loop is left without an invocation. -/
theorem C8_failure_iff_callback_fails_witness :
    (∃ r, Tmmbn.Create sampleBase 10 sampleTmmbn (List.replicate 40 9) 3 40 0 = .ok r ∧
      r.ok = true ∧ r.callback = 0) ∧
    (∃ r, Tmmbn.Create sampleBase 10 sampleTmmbn (List.replicate 20 9) 13 20 0 = .ok r ∧
      r.ok = false) ∧
    Tmmbn.CreateSpaceLoop sampleBase (sampleTmmbn.BlockLength sampleBase.kHeaderLength) 40
      (0 + 1) (List.replicate 40 9) (2 ^ 64 - 10) 0
        = .ok (true, List.replicate 40 9, 2 ^ 64 - 10, 0) :=
  ⟨(C8_failure_iff_callback_fails sampleBase 10 sampleTmmbn (List.replicate 40 9) 3 40 0).2.2.2
      (by decide) sampleBase_HeaderWriterOk (by decide) (by decide) (by decide),
   (C8_failure_iff_callback_fails sampleBase 10 sampleTmmbn (List.replicate 20 9) 13 20 0).2.1
      1 ⟨by decide, rfl, by decide, rfl⟩ (by decide),
   ((C8_failure_iff_callback_fails sampleBase 10 sampleTmmbn (List.replicate 40 9)
      (2 ^ 64 - 10) 40 0).2.2.1 (by decide)).2 0⟩

/-- C9: whenever `Create` returns failure, the buffer, the index and the callback
state that it leaves are exactly what the last invocation of `OnBufferFull` -
the failing one - left: `Create` wrote nothing itself; and the builder is the
one that was passed in. -/
theorem C9_failure_writes_nothing {σ : Type} (base : RtcpPacket σ) (fuel : Nat) (self : Tmmbn)
    (packet : List Nat) (index max_length : Nat) (callback : σ) (r : CreateResult σ)
    (h : Tmmbn.Create base fuel self packet index max_length callback = .ok r)
    (hr : r.ok = false) :
    ∃ k, Tmmbn.CallbackFailsAt base (self.BlockLength base.kHeaderLength) max_length k
        packet index callback ∧
      Tmmbn.callbackOutcome base k packet index callback
        = (false, r.packet, r.index, r.callback) ∧
      r.builder = self := by
  obtain ⟨hloop, hb⟩ := Create_false_inv base fuel self packet index max_length callback r h hr
  obtain ⟨k, _, hk, hout⟩ := CreateSpaceLoop_false base _ max_length fuel packet index callback
    _ hloop
  exact ⟨k, hk, hout, hb⟩

/-- C9 on a failing run of the sample builder: 20-byte limit, index 13; the first
invocation resets the index, the second one refuses. -/
theorem C9_failure_writes_nothing_witness :
    ∃ k, Tmmbn.CallbackFailsAt sampleBase (sampleTmmbn.BlockLength sampleBase.kHeaderLength) 20 k
        (List.replicate 20 9) 13 0 ∧
      Tmmbn.callbackOutcome sampleBase k (List.replicate 20 9) 13 0
        = (false, List.replicate 20 9, 0, 2) ∧
      sampleTmmbn = sampleTmmbn :=
  C9_failure_writes_nothing sampleBase 10 sampleTmmbn (List.replicate 20 9) 13 20 0
    ⟨false, sampleTmmbn, List.replicate 20 9, 0, 2⟩ (by rfl) rfl

theorem WithTmmbr_full (kMaxNumberOfTmmbrs : Nat) (self : Tmmbn)
    (ssrc bitrate_kbps overhead : Nat) (hfull : self.tmmbn_items_.length ≥ kMaxNumberOfTmmbrs)
    (hov : overhead ≤ 511) :
    Tmmbn.WithTmmbr kMaxNumberOfTmmbrs self ssrc bitrate_kbps overhead = .ok (false, self) := by
  unfold Tmmbn.WithTmmbr
  rw [if_pos hov, if_pos hfull]

theorem WithTmmbrCalls_full (kMaxNumberOfTmmbrs : Nat) (self : Tmmbn)
    (hfull : self.tmmbn_items_.length ≥ kMaxNumberOfTmmbrs) :
    ∀ calls : List (Nat × Nat × Nat), (∀ c ∈ calls, c.2.2 ≤ 511) →
      Tmmbn.WithTmmbrCalls kMaxNumberOfTmmbrs self calls
        = .ok (List.replicate calls.length false, self) := by
  intro calls
  induction calls with
  | nil => intro _; rfl
  | cons c rest ih =>
    intro hc
    obtain ⟨ssrc, bitrate_kbps, overhead⟩ := c
    unfold Tmmbn.WithTmmbrCalls
    rw [WithTmmbr_full kMaxNumberOfTmmbrs self ssrc bitrate_kbps overhead hfull
      (hc (ssrc, bitrate_kbps, overhead) (List.mem_cons_self _ _))]
    simp only
    rw [ih (fun c hmem => hc c (List.mem_cons_of_mem _ hmem))]
    rfl

theorem WithTmmbr_false_inv {kMaxNumberOfTmmbrs : Nat} {self after : Tmmbn}
    {ssrc bitrate_kbps overhead : Nat}
    (h : Tmmbn.WithTmmbr kMaxNumberOfTmmbrs self ssrc bitrate_kbps overhead = .ok (false, after)) :
    after = self ∧ self.tmmbn_items_.length ≥ kMaxNumberOfTmmbrs := by
  unfold Tmmbn.WithTmmbr at h
  by_cases hov : overhead ≤ 0x1ff
  · rw [if_pos hov] at h
    by_cases hfull : self.tmmbn_items_.length ≥ kMaxNumberOfTmmbrs
    · rw [if_pos hfull] at h
      cases h
      exact ⟨rfl, hfull⟩
    · rw [if_neg hfull] at h
      cases h
  · rw [if_neg hov] at h
    cases h

/-- C10: on a builder whose entry list has `kMaxNumberOfTmmbrs` entries or more,
`WithTmmbr` with any arguments (overhead at most 511) returns false and leaves
the builder as it was, and so does every call of any later run of `WithTmmbr`
calls; hence once a `WithTmmbr` call has returned false on some builder, every
later call returns false and the entries stay the same. -/
theorem C10_WithTmmbr_at_capacity (kMaxNumberOfTmmbrs : Nat) (self : Tmmbn)
    (ssrc bitrate_kbps overhead : Nat) (hfull : self.tmmbn_items_.length ≥ kMaxNumberOfTmmbrs)
    (hov : overhead ≤ 511) :
    Tmmbn.WithTmmbr kMaxNumberOfTmmbrs self ssrc bitrate_kbps overhead = .ok (false, self) ∧
    (∀ calls : List (Nat × Nat × Nat), (∀ c ∈ calls, c.2.2 ≤ 511) →
      Tmmbn.WithTmmbrCalls kMaxNumberOfTmmbrs self calls
        = .ok (List.replicate calls.length false, self)) ∧
    (∀ (before after : Tmmbn) (ssrc0 bitrate_kbps0 overhead0 : Nat),
      Tmmbn.WithTmmbr kMaxNumberOfTmmbrs before ssrc0 bitrate_kbps0 overhead0
        = .ok (false, after) →
      after = before ∧
      ∀ calls : List (Nat × Nat × Nat), (∀ c ∈ calls, c.2.2 ≤ 511) →
        Tmmbn.WithTmmbrCalls kMaxNumberOfTmmbrs after calls
          = .ok (List.replicate calls.length false, after)) := by
  refine ⟨WithTmmbr_full kMaxNumberOfTmmbrs self ssrc bitrate_kbps overhead hfull hov,
    WithTmmbrCalls_full kMaxNumberOfTmmbrs self hfull, ?_⟩
  intro before after ssrc0 bitrate_kbps0 overhead0 h
  obtain ⟨heq, hf⟩ := WithTmmbr_false_inv h
  subst heq
  exact ⟨rfl, WithTmmbrCalls_full kMaxNumberOfTmmbrs after hf⟩

/-- C10 on the sample builder with a capacity of two entries. -/
theorem C10_WithTmmbr_at_capacity_witness :
    Tmmbn.WithTmmbr 2 sampleTmmbn 7 64 12 = .ok (false, sampleTmmbn) ∧
    Tmmbn.WithTmmbrCalls 2 sampleTmmbn [(1, 2, 3), (4, 5, 6)]
      = .ok ([false, false], sampleTmmbn) :=
  ⟨(C10_WithTmmbr_at_capacity 2 sampleTmmbn 7 64 12 (by decide) (by decide)).1,
   (C10_WithTmmbr_at_capacity 2 sampleTmmbn 7 64 12 (by decide) (by decide)).2.1
     [(1, 2, 3), (4, 5, 6)] (by decide)⟩

/-- C11: on a builder whose entry list `L` has fewer than `kMaxNumberOfTmmbrs`
entries, `WithTmmbr` with overhead at most 511 returns true and leaves the
builder with the same sender SSRC and the entry list `L` followed by the one
entry `(ssrc, bitrate_kbps, overhead)`; the entries of `L` keep their values
and their positions. -/
theorem C11_WithTmmbr_appends (kMaxNumberOfTmmbrs : Nat) (self : Tmmbn)
    (ssrc bitrate_kbps overhead : Nat)
    (hroom : self.tmmbn_items_.length < kMaxNumberOfTmmbrs) (hov : overhead ≤ 511) :
    ∃ after : Tmmbn,
      Tmmbn.WithTmmbr kMaxNumberOfTmmbrs self ssrc bitrate_kbps overhead = .ok (true, after) ∧
      after.tmmbn_items_ = self.tmmbn_items_ ++ [⟨ssrc, bitrate_kbps, overhead⟩] ∧
      after.tmmbn_ = self.tmmbn_ ∧
      after.tmmbn_items_.length = self.tmmbn_items_.length + 1 ∧
      (∀ i, i < self.tmmbn_items_.length → after.tmmbn_items_[i]? = self.tmmbn_items_[i]?) ∧
      after.tmmbn_items_[self.tmmbn_items_.length]? = some ⟨ssrc, bitrate_kbps, overhead⟩ := by
  refine ⟨⟨self.tmmbn_, self.tmmbn_items_ ++ [⟨ssrc, bitrate_kbps, overhead⟩]⟩, ?_, rfl, rfl,
    ?_, ?_, ?_⟩
  · unfold Tmmbn.WithTmmbr
    rw [if_pos hov, if_neg (by omega)]
  · simp
  · intro i hi
    exact List.getElem?_append_left hi
  · simp

/-- C11 on the sample builder with a capacity of three entries. -/
theorem C11_WithTmmbr_appends_witness :
    ∃ after : Tmmbn,
      Tmmbn.WithTmmbr 3 sampleTmmbn 7 64 12 = .ok (true, after) ∧
      after.tmmbn_items_ = sampleTmmbn.tmmbn_items_ ++ [⟨7, 64, 12⟩] ∧
      after.tmmbn_ = sampleTmmbn.tmmbn_ ∧
      after.tmmbn_items_.length = sampleTmmbn.tmmbn_items_.length + 1 ∧
      (∀ i, i < sampleTmmbn.tmmbn_items_.length →
        after.tmmbn_items_[i]? = sampleTmmbn.tmmbn_items_[i]?) ∧
      after.tmmbn_items_[sampleTmmbn.tmmbn_items_.length]? = some ⟨7, 64, 12⟩ :=
  C11_WithTmmbr_appends 3 sampleTmmbn 7 64 12 (by decide) (by decide)

theorem WithTmmbr_length_le {kMaxNumberOfTmmbrs : Nat} {self after : Tmmbn}
    {ssrc bitrate_kbps overhead : Nat} {result : Bool}
    (h : Tmmbn.WithTmmbr kMaxNumberOfTmmbrs self ssrc bitrate_kbps overhead
      = .ok (result, after))
    (hself : self.tmmbn_items_.length ≤ kMaxNumberOfTmmbrs) :
    after.tmmbn_items_.length ≤ kMaxNumberOfTmmbrs := by
  unfold Tmmbn.WithTmmbr at h
  by_cases hov : overhead ≤ 0x1ff
  · rw [if_pos hov] at h
    by_cases hfull : self.tmmbn_items_.length ≥ kMaxNumberOfTmmbrs
    · rw [if_pos hfull] at h
      cases h
      exact hself
    · rw [if_neg hfull] at h
      cases h
      simp only [List.length_append, List.length_singleton]
      omega
  · rw [if_neg hov] at h
    cases h

theorem Create_builder {σ : Type} (base : RtcpPacket σ) (fuel : Nat) (self : Tmmbn)
    (packet : List Nat) (index max_length : Nat) (callback : σ) (r : CreateResult σ)
    (h : Tmmbn.Create base fuel self packet index max_length callback = .ok r) :
    r.builder = self := by
  cases hb : r.ok with
  | false => exact (Create_false_inv base fuel self packet index max_length callback r h hb).2
  | true =>
    obtain ⟨_, _, _, _, _, _, _, hself⟩ :=
      Create_true_inv base fuel self packet index max_length callback r h hb
    exact hself

/-- C12: capacity invariant.  Every builder reached from a builder without entries
by a finite sequence of `WithTmmbr` and `Create` calls has at most
`kMaxNumberOfTmmbrs` entries. -/
theorem C12_capacity_invariant {σ : Type} (base : RtcpPacket σ) (kMaxNumberOfTmmbrs : Nat)
    (self : Tmmbn) (h : Tmmbn.Reachable base kMaxNumberOfTmmbrs self) :
    self.tmmbn_items_.length ≤ kMaxNumberOfTmmbrs := by
  induction h with
  | empty tmmbn => exact Nat.zero_le _
  | withTmmbr ssrc bitrate_kbps overhead result _ hcall ih => exact WithTmmbr_length_le hcall ih
  | create fuel packet index max_length callback r _ hcall ih =>
    rw [Create_builder base fuel _ packet index max_length callback r hcall]
    exact ih

/-- C12 on the sample builder, reached with a capacity of two entries by two
accepted `WithTmmbr` calls, a refused one and a `Create`. -/
theorem C12_capacity_invariant_witness : sampleTmmbn.tmmbn_items_.length ≤ 2 :=
  C12_capacity_invariant sampleBase 2 sampleTmmbn
    (Tmmbn.Reachable.create 10 (List.replicate 40 9) 3 40 0
      ⟨true, sampleTmmbn,
        [9, 9, 9, 132, 205, 0, 6, 1, 2, 3, 4, 0, 0, 0, 0, 17, 34, 51, 68, 15, 208, 144, 40,
          85, 102, 119, 136, 45, 255, 255, 255, 9, 9, 9, 9, 9, 9, 9, 9, 9], 31, 0⟩
      (Tmmbn.Reachable.withTmmbr 7 64 12 false
        (Tmmbn.Reachable.withTmmbr 0x55667788 134217 511 true
          (Tmmbn.Reachable.withTmmbr 0x11223344 1000 40 true
            (Tmmbn.Reachable.empty ⟨0x01020304⟩ :
              Tmmbn.Reachable sampleBase 2 ⟨⟨0x01020304⟩, []⟩)
            (by rfl) :
            Tmmbn.Reachable sampleBase 2 ⟨⟨0x01020304⟩, [⟨0x11223344, 1000, 40⟩]⟩)
          (by rfl) : Tmmbn.Reachable sampleBase 2 sampleTmmbn)
        (by rfl) : Tmmbn.Reachable sampleBase 2 sampleTmmbn)
      (by rfl))

/-- C14: the concrete scenario.  For the entry `(0x11223344, 1000, 40)` the
quantizer is applied to 1000000 and returns exponent 3 (the smallest that
fits) and mantissa 125000; the entry is serialized as
`11 22 33 44 0F D0 90 28`. -/
theorem C14_concrete_scenario :
    (1000 * 1000) % 2 ^ 32 = 1000000 ∧
    ComputeMantissaAnd6bitBase2Exponent 1000000 17 = .ok (125000, 3) ∧
    1000000 ≤ shl32 131071 3 ∧ ¬ 1000000 ≤ shl32 131071 2 ∧
    CreateTmmbrItem ⟨0x11223344, 1000, 40⟩ (List.replicate 8 0) 0
      = .ok ([0x11, 0x22, 0x33, 0x44, 0x0F, 0xD0, 0x90, 0x28], 8) := by
  refine ⟨by decide, by rfl, by decide, by decide, by rfl⟩

/-- C15, the code at the failing input: for `bitrate_kbps = 4294967` the quantizer
is applied to `v = 4294967000`; no comparison of the loop succeeds, the
exponent keeps its initial 0, and line 47 stores the whole input as mantissa:
the result is `(4294967000, 0)`, not the zero state `(0, 0)`, and the mantissa
does not fit in 17 bits. -/
theorem C15_mantissa_not_zero :
    (4294967 * 1000) % 2 ^ 32 = 4294967000 ∧
    (∀ i, i < 64 → ¬ 4294967000 ≤ shl32 131071 i) ∧
    ComputeMantissaAnd6bitBase2Exponent 4294967000 17 = .ok (4294967000, 0) ∧
    ComputeMantissaAnd6bitBase2Exponent 4294967000 17 ≠ .ok (0, 0) ∧
    ¬ 4294967000 < 2 ^ 17 := by
  refine ⟨by decide, by decide, by rfl, ?_, by decide⟩
  rw [show ComputeMantissaAnd6bitBase2Exponent 4294967000 17 = .ok (4294967000, 0) from by rfl]
  intro h
  cases h

/-- C17: truncation, not rounding.  For every input `v` the returned pair satisfies
`mantissa = v / 2^exp` (rounded down), so that
`mantissa * 2^exp ≤ v < (mantissa + 1) * 2^exp`. -/
theorem C17_truncation (v : Nat) :
    ∃ mantissa exp, ComputeMantissaAnd6bitBase2Exponent v 17 = .ok (mantissa, exp) ∧
      mantissa = v / 2 ^ exp ∧ mantissa * 2 ^ exp ≤ v ∧ v < (mantissa + 1) * 2 ^ exp := by
  refine ⟨_, _, Compute17_eq v, rfl, Nat.div_mul_le_self v _, ?_⟩
  have hpos : 0 < 2 ^ findExponent v 131071 64 0 := Nat.pow_pos (by norm_num)
  exact (Nat.div_lt_iff_lt_mul hpos).mp (Nat.lt_succ_self _)

/-- C18: quantization is lossless on representable values.  For every `a ≤ 131071`
and `b` with `v = a * 2^b ≤ 131071 * 2^15`, the returned pair satisfies
`mantissa * 2^exp = v`; the pair need not be `(a, b)`, as for `1 * 2^1`, which
gives `(2, 0)`. -/
theorem C18_lossless_on_representable (a b : Nat) (ha : a ≤ 131071)
    (hv : a * 2 ^ b ≤ 131071 * 2 ^ 15) :
    (∃ mantissa exp,
      ComputeMantissaAnd6bitBase2Exponent (a * 2 ^ b) 17 = .ok (mantissa, exp) ∧
      exp ≤ b ∧ mantissa * 2 ^ exp = a * 2 ^ b) ∧
    ComputeMantissaAnd6bitBase2Exponent (1 * 2 ^ 1) 17 = .ok (2, 0) := by
  refine ⟨?_, by rfl⟩
  obtain ⟨mantissa, exp, hq, _, _, hmin, hman, _⟩ :=
    quantizer_in_range (a * 2 ^ b) 17 (by norm_num) (by norm_num; omega)
  have hle : exp ≤ b := hmin b (Nat.mul_le_mul_right _ (by norm_num; omega))
  refine ⟨mantissa, exp, hq, hle, ?_⟩
  have hdvd : 2 ^ exp ∣ a * 2 ^ b := Dvd.dvd.mul_left (Nat.pow_dvd_pow 2 hle) a
  rw [hman]
  exact Nat.div_mul_cancel hdvd

/-- C18 at `a = 125000`, `b = 3`. -/
theorem C18_lossless_on_representable_witness :
    (∃ mantissa exp,
      ComputeMantissaAnd6bitBase2Exponent (125000 * 2 ^ 3) 17 = .ok (mantissa, exp) ∧
      exp ≤ 3 ∧ mantissa * 2 ^ exp = 125000 * 2 ^ 3) ∧
    ComputeMantissaAnd6bitBase2Exponent (1 * 2 ^ 1) 17 = .ok (2, 0) :=
  C18_lossless_on_representable 125000 3 (by decide) (by decide)

/-- C19: for every input `v` the exponent returned for a 17-bit mantissa is at most
15; the byte-5 expression `(exp << 2) + ((mantissa >> 15) & 3)` is at most 63,
so it is not changed by the conversion to a byte, and its upper six bits are
`exp`, its lower two bits `(mantissa >> 15) & 3`: nothing is carried into the
exponent. -/
theorem C19_exponent_fits (v : Nat) :
    ∃ mantissa exp, ComputeMantissaAnd6bitBase2Exponent v 17 = .ok (mantissa, exp) ∧
      exp ≤ 15 ∧
      (exp <<< 2) + ((mantissa >>> 15) &&& 0x03) ≤ 63 ∧
      ((exp <<< 2) + ((mantissa >>> 15) &&& 0x03)) % 256
        = (exp <<< 2) + ((mantissa >>> 15) &&& 0x03) ∧
      ((exp <<< 2) + ((mantissa >>> 15) &&& 0x03)) >>> 2 = exp ∧
      ((exp <<< 2) + ((mantissa >>> 15) &&& 0x03)) &&& 0x03 = (mantissa >>> 15) &&& 0x03 := by
  have key : ∃ mantissa exp,
      ComputeMantissaAnd6bitBase2Exponent v 17 = .ok (mantissa, exp) ∧ exp ≤ 15 := by
    by_cases hv : v ≤ 131071 * 2 ^ 15
    · obtain ⟨mantissa, exp, hq, _, hexp, _⟩ :=
        quantizer_in_range v 17 (by norm_num) (by norm_num; omega)
      exact ⟨mantissa, exp, hq, by omega⟩
    · exact ⟨v, 0, quantizer_out_of_range v (by omega), Nat.zero_le _⟩
  obtain ⟨mantissa, exp, hq, hexp⟩ := key
  refine ⟨mantissa, exp, hq, hexp, ?_, ?_, ?_, ?_⟩
  · rw [and_three, Nat.shiftLeft_eq]; omega
  · rw [and_three, Nat.shiftLeft_eq]; omega
  · rw [and_three, Nat.shiftLeft_eq, Nat.shiftRight_eq_div_pow]; omega
  · rw [and_three, and_three, Nat.shiftLeft_eq]; omega

/-! ## Room, buffer length and the written range -/

theorem getElem?_overwrite_outside (buffer : List Nat) (pos : Nat) (bytes : List Nat) (j : Nat)
    (h : pos + bytes.length ≤ buffer.length) (hj : j < pos ∨ pos + bytes.length ≤ j) :
    (overwrite buffer pos bytes)[j]? = buffer[j]? := by
  have hlen : (List.take pos buffer).length = pos := by
    rw [List.length_take]; omega
  unfold overwrite
  rcases hj with hj | hj
  · rw [List.append_assoc, List.getElem?_append_left (by omega), List.getElem?_take_of_lt hj]
  · rw [List.getElem?_append_right (by simp only [List.length_append, hlen]; omega),
      List.getElem?_drop]
    congr 1
    simp only [List.length_append, hlen]
    omega

/-- A run of the space loop that comes back with `true` ends with its test
failing, and with a buffer of the length it started with when `OnBufferFull`
keeps the length. -/
theorem CreateSpaceLoop_true {σ : Type} (base : RtcpPacket σ) (blockLength max_length : Nat) :
    ∀ (fuel : Nat) (packet : List Nat) (index : Nat) (callback : σ)
      (packet0 : List Nat) (index0 : Nat) (callback0 : σ),
      Tmmbn.CreateSpaceLoop base blockLength max_length fuel packet index callback
        = .ok (true, packet0, index0, callback0) →
      (index0 + blockLength) % 2 ^ 64 ≤ max_length ∧
        (base.KeepsLength → packet0.length = packet.length) := by
  intro fuel
  induction fuel with
  | zero =>
    intro packet index callback packet0 index0 callback0 h
    unfold Tmmbn.CreateSpaceLoop at h
    cases h
  | succ f ih =>
    intro packet index callback packet0 index0 callback0 h
    unfold Tmmbn.CreateSpaceLoop at h
    by_cases hs : (index + blockLength) % 2 ^ 64 > max_length
    · rw [if_pos hs] at h
      cases hcb : base.OnBufferFull packet index callback with
      | mk b rest =>
        obtain ⟨p, i, c⟩ := rest
        rw [hcb] at h
        cases b with
        | false =>
          simp only at h
          cases h
        | true =>
          simp only at h
          obtain ⟨h1, h2⟩ := ih p i c packet0 index0 callback0 h
          refine ⟨h1, fun hkeep => ?_⟩
          have hk := hkeep packet index callback
          rw [hcb] at hk
          rw [h2 hkeep]
          exact hk
    · rw [if_neg hs] at h
      cases h
      exact ⟨by omega, fun _ => rfl⟩

/-- Once the space loop has come back and the block fits the buffer from the index
the loop left, `Create` succeeds and writes header and payload back to back
from that index. -/
theorem Create_after_loop {σ : Type} (base : RtcpPacket σ) (fuel : Nat) (self : Tmmbn)
    (packet : List Nat) (index max_length : Nat) (callback : σ)
    (packet0 : List Nat) (index0 : Nat) (callback0 : σ)
    (hloop : Tmmbn.CreateSpaceLoop base (self.BlockLength base.kHeaderLength) max_length fuel
      packet index callback = .ok (true, packet0, index0, callback0))
    (hroom : index0 + self.BlockLength base.kHeaderLength ≤ packet0.length)
    (hhdr : base.HeaderWriterOk)
    (hn : self.tmmbn_items_.length ≤ 255) (hf : self.tmmbn_items_.length < fuel) :
    ∃ header : List Nat, header.length = base.kHeaderLength ∧
      base.CreateHeader 4 PT_RTPFB self.HeaderLength packet0 index0
        = .ok (overwrite packet0 index0 header, index0 + base.kHeaderLength) ∧
      Tmmbn.Create base fuel self packet index max_length callback
        = .ok ⟨true, self, overwrite packet0 index0 (header ++ tmmbnPayload self),
            index0 + self.BlockLength base.kHeaderLength, callback0⟩ := by
  have hBL : self.BlockLength base.kHeaderLength
      = base.kHeaderLength + 8 + 8 * self.tmmbn_items_.length := rfl
  obtain ⟨header, hh1, hh2⟩ := hhdr 4 PT_RTPFB self.HeaderLength packet0 index0 (by omega)
  refine ⟨header, hh1, hh2, ?_⟩
  unfold Tmmbn.Create
  rw [hloop]
  simp only
  rw [hh2]
  simp only
  have hl : (overwrite packet0 index0 header).length = packet0.length :=
    length_overwrite _ _ _ (by omega)
  rw [CreateTmmbn_run fuel self.tmmbn_ self.tmmbn_items_ _ _ hn hf (by omega)]
  simp only
  have happ := overwrite_append packet0 index0 header (tmmbnPayload self) (by omega)
  rw [hh1] at happ
  rw [happ, hBL]
  congr 2
  omega

theorem sampleBase_KeepsLength : sampleBase.KeepsLength := by
  intro packet index callback
  show (if index = 0 then (false, packet, index, callback + 1)
    else (true, packet, 0, callback + 1)).2.1.length = packet.length
  split <;> rfl

theorem sampleBase_HeaderWriterChecked : sampleBase.HeaderWriterChecked := by
  intro format packet_type length buffer pos r h
  by_cases h4 : pos + 4 ≤ buffer.length
  · exact h4
  · have he : sampleBase.CreateHeader format packet_type length buffer pos
        = .error .outOfBounds := by
      show (if pos + 4 ≤ buffer.length then _ else _) = _
      rw [if_neg h4]
    rw [he] at h
    cases h

/-- C13: a successful `Create` on a builder with `n` entries - the header writer
writing `kHeaderLength` bytes where there is room and faulting where there is
not, the buffer being shorter than `2^64` bytes - leaves the index exactly
`kHeaderLength + 8 + 8 * n` past the index at which writing started (the one
the space loop left): the header writer advances it by `kHeaderLength` and
`CreateTmmbn` by `8 + 8 * n`.  That sum is the `BlockLength()` of the space
check and does not wrap, the bytes written are that many and lie inside the
buffer and below `max_length`, and every byte outside that range is as it
was. -/
theorem C13_index_advance {σ : Type} (base : RtcpPacket σ) (fuel : Nat) (self : Tmmbn)
    (packet : List Nat) (index max_length : Nat) (callback : σ) (r : CreateResult σ)
    (h : Tmmbn.Create base fuel self packet index max_length callback = .ok r)
    (hok : r.ok = true) (hhdr : base.HeaderWriterOk) (hchk : base.HeaderWriterChecked)
    (hkeep : base.KeepsLength) (hsize : packet.length < 2 ^ 64) :
    ∃ (packet0 : List Nat) (index0 : Nat) (header : List Nat),
      Tmmbn.CreateSpaceLoop base (self.BlockLength base.kHeaderLength) max_length fuel
        packet index callback = .ok (true, packet0, index0, r.callback) ∧
      header.length = base.kHeaderLength ∧
      base.CreateHeader 4 PT_RTPFB self.HeaderLength packet0 index0
        = .ok (overwrite packet0 index0 header, index0 + base.kHeaderLength) ∧
      CreateTmmbn fuel self.tmmbn_ self.tmmbn_items_ (overwrite packet0 index0 header)
          (index0 + base.kHeaderLength)
        = .ok (r.packet, index0 + base.kHeaderLength + 8 + 8 * self.tmmbn_items_.length) ∧
      r.index = index0 + (base.kHeaderLength + 8 + 8 * self.tmmbn_items_.length) ∧
      self.BlockLength base.kHeaderLength
        = base.kHeaderLength + 8 + 8 * self.tmmbn_items_.length ∧
      index0 + self.BlockLength base.kHeaderLength ≤ packet0.length ∧
      index0 + self.BlockLength base.kHeaderLength ≤ max_length ∧
      r.packet = overwrite packet0 index0 (header ++ tmmbnPayload self) ∧
      (header ++ tmmbnPayload self).length = self.BlockLength base.kHeaderLength ∧
      ∀ j, j < index0 ∨ index0 + self.BlockLength base.kHeaderLength ≤ j →
        r.packet[j]? = packet0[j]? := by
  obtain ⟨packet0, index0, packet1, index1, hloop, hhdr1, hbody, _⟩ :=
    Create_true_inv base fuel self packet index max_length callback r h hok
  obtain ⟨hn, hf, hpay⟩ := CreateTmmbn_inv hbody
  obtain ⟨htest, hsame⟩ := CreateSpaceLoop_true base _ max_length fuel packet index callback
    packet0 index0 r.callback hloop
  have hBL : self.BlockLength base.kHeaderLength
      = base.kHeaderLength + 8 + 8 * self.tmmbn_items_.length := rfl
  have hroomH : index0 + base.kHeaderLength ≤ packet0.length :=
    hchk 4 PT_RTPFB self.HeaderLength packet0 index0 _ hhdr1
  have hfit : index0 + self.BlockLength base.kHeaderLength ≤ packet0.length := by
    obtain ⟨header0, hh01, hh02⟩ := hhdr 4 PT_RTPFB self.HeaderLength packet0 index0 hroomH
    rw [hh02] at hhdr1
    have hp1 : overwrite packet0 index0 header0 = packet1 :=
      congrArg Prod.fst (Except.ok.inj hhdr1)
    have hi1 : index0 + base.kHeaderLength = index1 :=
      congrArg Prod.snd (Except.ok.inj hhdr1)
    have hl1 : packet1.length = packet0.length := by
      rw [← hp1]
      exact length_overwrite _ _ _ (by omega)
    rw [hBL]
    omega
  have hroom : index0 + self.BlockLength base.kHeaderLength ≤ max_length := by
    have hl := hsame hkeep
    omega
  obtain ⟨header, hh1, hh2, hcreate⟩ := Create_after_loop base fuel self packet index max_length
    callback packet0 index0 r.callback hloop hfit hhdr hn hf
  have hr : r = ⟨true, self, overwrite packet0 index0 (header ++ tmmbnPayload self),
      index0 + self.BlockLength base.kHeaderLength, r.callback⟩ := by
    rw [h] at hcreate
    exact Except.ok.inj hcreate
  have hpacket : r.packet = overwrite packet0 index0 (header ++ tmmbnPayload self) := by
    rw [hr]
  have hindex : r.index = index0 + self.BlockLength base.kHeaderLength := by
    rw [hr]
  have hbytes : (header ++ tmmbnPayload self).length = self.BlockLength base.kHeaderLength := by
    rw [List.length_append, length_tmmbnPayload, hh1, hBL]
    omega
  rw [hh2] at hhdr1
  have hp1 : overwrite packet0 index0 header = packet1 :=
    congrArg Prod.fst (Except.ok.inj hhdr1)
  have hi1 : index0 + base.kHeaderLength = index1 :=
    congrArg Prod.snd (Except.ok.inj hhdr1)
  refine ⟨packet0, index0, header, hloop, hh1, hh2, ?_, ?_, hBL, hfit, hroom, hpacket, hbytes,
    ?_⟩
  · rw [hp1, hi1, hbody]
    congr 2
    rw [hindex, hBL, ← hi1]
    omega
  · rw [hindex, hBL]
  · intro j hj
    rw [hpacket]
    exact getElem?_overwrite_outside packet0 index0 _ j (by rw [hbytes]; omega)
      (by rw [hbytes]; exact hj)

/-- C13 on a run of the sample builder (two entries, four-byte header) into a
40-byte buffer from index 3: the index ends at `3 + (4 + 8 + 16)`. -/
theorem C13_index_advance_witness :
    ∃ (packet0 : List Nat) (index0 : Nat) (header : List Nat),
      Tmmbn.CreateSpaceLoop sampleBase (sampleTmmbn.BlockLength sampleBase.kHeaderLength) 40 10
        (List.replicate 40 9) 3 0 = .ok (true, packet0, index0, 0) ∧
      header.length = sampleBase.kHeaderLength ∧
      sampleBase.CreateHeader 4 PT_RTPFB sampleTmmbn.HeaderLength packet0 index0
        = .ok (overwrite packet0 index0 header, index0 + sampleBase.kHeaderLength) ∧
      CreateTmmbn 10 sampleTmmbn.tmmbn_ sampleTmmbn.tmmbn_items_ (overwrite packet0 index0 header)
          (index0 + sampleBase.kHeaderLength)
        = .ok ([9, 9, 9, 132, 205, 0, 6, 1, 2, 3, 4, 0, 0, 0, 0, 17, 34, 51, 68, 15, 208, 144,
            40, 85, 102, 119, 136, 45, 255, 255, 255, 9, 9, 9, 9, 9, 9, 9, 9, 9],
          index0 + sampleBase.kHeaderLength + 8 + 8 * sampleTmmbn.tmmbn_items_.length) ∧
      31 = index0 + (sampleBase.kHeaderLength + 8 + 8 * sampleTmmbn.tmmbn_items_.length) ∧
      sampleTmmbn.BlockLength sampleBase.kHeaderLength
        = sampleBase.kHeaderLength + 8 + 8 * sampleTmmbn.tmmbn_items_.length ∧
      index0 + sampleTmmbn.BlockLength sampleBase.kHeaderLength ≤ packet0.length ∧
      index0 + sampleTmmbn.BlockLength sampleBase.kHeaderLength ≤ 40 ∧
      [9, 9, 9, 132, 205, 0, 6, 1, 2, 3, 4, 0, 0, 0, 0, 17, 34, 51, 68, 15, 208, 144,
          40, 85, 102, 119, 136, 45, 255, 255, 255, 9, 9, 9, 9, 9, 9, 9, 9, 9]
        = overwrite packet0 index0 (header ++ tmmbnPayload sampleTmmbn) ∧
      (header ++ tmmbnPayload sampleTmmbn).length
        = sampleTmmbn.BlockLength sampleBase.kHeaderLength ∧
      ∀ j, j < index0 ∨ index0 + sampleTmmbn.BlockLength sampleBase.kHeaderLength ≤ j →
        [9, 9, 9, 132, 205, 0, 6, 1, 2, 3, 4, 0, 0, 0, 0, 17, 34, 51, 68, 15, 208, 144,
          40, 85, 102, 119, 136, 45, 255, 255, 255, 9, 9, 9, 9, 9, 9, 9, 9, 9][j]?
          = packet0[j]? :=
  C13_index_advance sampleBase 10 sampleTmmbn (List.replicate 40 9) 3 40 0
    ⟨true, sampleTmmbn,
      [9, 9, 9, 132, 205, 0, 6, 1, 2, 3, 4, 0, 0, 0, 0, 17, 34, 51, 68, 15, 208, 144, 40,
        85, 102, 119, 136, 45, 255, 255, 255, 9, 9, 9, 9, 9, 9, 9, 9, 9], 31, 0⟩
    (by rfl) rfl sampleBase_HeaderWriterOk sampleBase_HeaderWriterChecked
    sampleBase_KeepsLength (by decide)

/-- Dropping the record of the visits gives the loop of `CreateTmmbn` back. -/
theorem CreateTmmbnLoopVisits_erase (items : List RTCPPacketRTPFBTMMBRItem) :
    ∀ (fuel i : Nat) (buffer : List Nat) (pos : Nat),
      (CreateTmmbnLoopVisits items fuel i buffer pos).map (fun r => r.2)
        = CreateTmmbnLoop items fuel i buffer pos := by
  intro fuel
  induction fuel with
  | zero =>
    intro i buffer pos
    unfold CreateTmmbnLoopVisits CreateTmmbnLoop
    rfl
  | succ f ih =>
    intro i buffer pos
    unfold CreateTmmbnLoopVisits CreateTmmbnLoop
    by_cases hlt : i < items.length
    · rw [dif_pos hlt, dif_pos hlt]
      cases hitem : CreateTmmbrItem (items.get ⟨i, hlt⟩) buffer pos with
      | error e => rfl
      | ok r1 =>
        obtain ⟨b1, p1⟩ := r1
        simp only
        rw [← ih ((i + 1) % 256) b1 p1]
        cases CreateTmmbnLoopVisits items f ((i + 1) % 256) b1 p1 with
        | error e => rfl
        | ok r2 => rfl
    · rw [dif_neg hlt, dif_neg hlt]
      rfl

/-- With at most 255 entries, fuel for them and room in the buffer, the loop started
at counter `i` enters its body with `i`, `i + 1`, ... up to the last index. -/
theorem CreateTmmbnLoopVisits_run (items : List RTCPPacketRTPFBTMMBRItem)
    (hn : items.length ≤ 255) :
    ∀ (d i : Nat) (buffer : List Nat) (pos fuel : Nat), i + d = items.length → d < fuel →
      pos + 8 * d ≤ buffer.length →
      CreateTmmbnLoopVisits items fuel i buffer pos
        = .ok (List.range' i d,
            overwrite buffer pos (((items.drop i).map encodedTmmbrItem).flatten), pos + 8 * d) := by
  intro d
  induction d with
  | zero =>
    intro i buffer pos fuel hi hf _
    obtain ⟨f, rfl⟩ : ∃ f, fuel = f + 1 := ⟨fuel - 1, by omega⟩
    unfold CreateTmmbnLoopVisits
    rw [dif_neg (by omega)]
    have : List.drop i items = [] := List.drop_eq_nil_of_le (by omega)
    rw [this]
    simp [overwrite_nil]
  | succ d ih =>
    intro i buffer pos fuel hi hf hpos
    obtain ⟨f, rfl⟩ : ∃ f, fuel = f + 1 := ⟨fuel - 1, by omega⟩
    have hlt : i < items.length := by omega
    unfold CreateTmmbnLoopVisits
    rw [dif_pos hlt, CreateTmmbrItem_encoded _ buffer pos (by omega)]
    simp only
    rw [Nat.mod_eq_of_lt (by omega)]
    rw [ih (i + 1) _ (pos + 8) f (by omega) (by omega)
      (by rw [length_overwrite _ _ _ (by rw [length_encodedTmmbrItem]; omega)]; omega)]
    have hdrop : List.drop i items = items.get ⟨i, hlt⟩ :: List.drop (i + 1) items :=
      List.drop_eq_getElem_cons hlt
    have happ := overwrite_append buffer pos (encodedTmmbrItem (items.get ⟨i, hlt⟩))
      (((items.drop (i + 1)).map encodedTmmbrItem).flatten)
      (by rw [length_encodedTmmbrItem]; omega)
    rw [length_encodedTmmbrItem] at happ
    rw [happ, hdrop]
    simp only [List.map_cons, List.flatten_cons, List.range'_succ]
    congr 3
    omega

/-- With room in the buffer and fuel for no more than the entries still to write,
the loop is cut off: each of them takes an iteration. -/
theorem CreateTmmbnLoop_short (items : List RTCPPacketRTPFBTMMBRItem) (hn : items.length ≤ 255) :
    ∀ (fuel i : Nat) (buffer : List Nat) (pos : Nat), i + fuel ≤ items.length →
      pos + 8 * fuel ≤ buffer.length →
      CreateTmmbnLoop items fuel i buffer pos = .error .outOfFuel := by
  intro fuel
  induction fuel with
  | zero =>
    intro i buffer pos _ _
    unfold CreateTmmbnLoop
    rfl
  | succ f ih =>
    intro i buffer pos hi hpos
    have hlt : i < items.length := by omega
    unfold CreateTmmbnLoop
    rw [dif_pos hlt, CreateTmmbrItem_encoded _ buffer pos (by omega)]
    simp only
    rw [Nat.mod_eq_of_lt (by omega)]
    exact ih (i + 1) _ (pos + 8) (by omega)
      (by rw [length_overwrite _ _ _ (by rw [length_encodedTmmbrItem]; omega)]; omega)

/-- C20: termination of the serialization loop.  For an entry list of `n ≤ 255`
entries and a buffer with room for them, the loop of `CreateTmmbn`, whose
counter wraps at 256, comes back after exactly `n` iterations - `n + 1` tests
of its condition suffice and `n` do not - having entered its body with the
indices `0, 1, ..., n - 1` in this order, each once, and having written the
encodings of the entries one after the other. -/
theorem C20_loop_terminates (tmmbn_items : List RTCPPacketRTPFBTMMBRItem)
    (buffer : List Nat) (pos : Nat) (hn : tmmbn_items.length ≤ 255)
    (hroom : pos + 8 * tmmbn_items.length ≤ buffer.length) :
    CreateTmmbnLoopVisits tmmbn_items (tmmbn_items.length + 1) 0 buffer pos
      = .ok (List.range tmmbn_items.length,
          overwrite buffer pos ((tmmbn_items.map encodedTmmbrItem).flatten),
          pos + 8 * tmmbn_items.length) ∧
    CreateTmmbnLoop tmmbn_items (tmmbn_items.length + 1) 0 buffer pos
      = .ok (overwrite buffer pos ((tmmbn_items.map encodedTmmbrItem).flatten),
          pos + 8 * tmmbn_items.length) ∧
    CreateTmmbnLoop tmmbn_items tmmbn_items.length 0 buffer pos = .error .outOfFuel ∧
    ∀ fuel, (CreateTmmbnLoopVisits tmmbn_items fuel 0 buffer pos).map (fun r => r.2)
      = CreateTmmbnLoop tmmbn_items fuel 0 buffer pos := by
  have hv := CreateTmmbnLoopVisits_run tmmbn_items hn tmmbn_items.length 0 buffer pos
    (tmmbn_items.length + 1) (by omega) (by omega) hroom
  have hl := CreateTmmbnLoop_run tmmbn_items hn tmmbn_items.length 0 buffer pos
    (tmmbn_items.length + 1) (by omega) (by omega) hroom
  rw [List.drop_zero] at hv hl
  refine ⟨?_, hl, ?_, fun fuel => CreateTmmbnLoopVisits_erase tmmbn_items fuel 0 buffer pos⟩
  · rw [hv, List.range_eq_range']
  · exact CreateTmmbnLoop_short tmmbn_items hn tmmbn_items.length 0 buffer pos (by omega) hroom

/-- C20 on the two entries of the sample builder, written from offset 1 of an
18-byte buffer. -/
theorem C20_loop_terminates_witness :
    CreateTmmbnLoopVisits sampleTmmbn.tmmbn_items_ (sampleTmmbn.tmmbn_items_.length + 1) 0
        (List.replicate 18 9) 1
      = .ok (List.range sampleTmmbn.tmmbn_items_.length,
          overwrite (List.replicate 18 9) 1
            ((sampleTmmbn.tmmbn_items_.map encodedTmmbrItem).flatten),
          1 + 8 * sampleTmmbn.tmmbn_items_.length) ∧
    CreateTmmbnLoop sampleTmmbn.tmmbn_items_ (sampleTmmbn.tmmbn_items_.length + 1) 0
        (List.replicate 18 9) 1
      = .ok (overwrite (List.replicate 18 9) 1
            ((sampleTmmbn.tmmbn_items_.map encodedTmmbrItem).flatten),
          1 + 8 * sampleTmmbn.tmmbn_items_.length) ∧
    CreateTmmbnLoop sampleTmmbn.tmmbn_items_ sampleTmmbn.tmmbn_items_.length 0
        (List.replicate 18 9) 1 = .error .outOfFuel ∧
    ∀ fuel, (CreateTmmbnLoopVisits sampleTmmbn.tmmbn_items_ fuel 0
        (List.replicate 18 9) 1).map (fun r => r.2)
      = CreateTmmbnLoop sampleTmmbn.tmmbn_items_ fuel 0 (List.replicate 18 9) 1 :=
  C20_loop_terminates sampleTmmbn.tmmbn_items_ (List.replicate 18 9) 1 (by decide) (by decide)

end webrtc.rtcp
